import Mathlib

/-!
# neutrino-client: the request pipeline of `apiClient.go`

A shallow embedding of `src/apiClient.go`.  The Go standard library and the
`models` package are outside the file; whatever the client calls there
(`json.Marshal`, `http.NewRequest`, `models.Options.String`, `http.Client.Do`,
`ioutil.ReadAll`, `json.Unmarshal`) is a field of `Env`, so every theorem holds
for all behaviours of these collaborators; only the decoding half of the
options claim is stated against the Options Encoder as the spec describes it.
Logging is a sink and is dropped.  A run-time panic of a type assertion is an explicit outcome (`Completion.panicked`),
and each call records the request it handed to `client.Do` (`sent`), which is
how the statements speak about the outbound request.
-/

namespace Neutrino

/-! ## Data model -/

/-- Go `error` values, identified by their message; `Option GoError` is the
`error` interface, `none` being `nil`. -/
abbrev GoError := String

/-- The dynamic values an `interface{}` holds in this program.  `nil` is the nil
interface; for maps and slices `none` is the nil map or nil slice, which is a
non-nil interface value once it is stored in an `interface{}`. -/
inductive GoValue where
  | nil
  | bool (b : Bool)
  | float64 (bits : Nat)
  | string (s : String)
  | ifaceSlice (xs : Option (List GoValue))
  | stringSlice (xs : Option (List String))
  | strMap (m : Option (List (String × GoValue)))
  | mapSlice (ms : Option (List (Option (List (String × GoValue)))))

/-- Go `map[string]interface{}`; `none` is the nil map. -/
abbrev Record := Option (List (String × GoValue))

/-- Go `[]map[string]interface{}`; `none` is the nil slice. -/
abbrev Records := Option (List Record)

/-- Map indexing `m[k]`: the zero value (nil interface) when the key is absent,
also on a nil map. -/
def Record.index (m : Record) (k : String) : GoValue :=
  match m with
  | none => GoValue.nil
  | some kvs => (List.lookup k kvs).getD GoValue.nil

/-- Type assertion `v.(string)`; `none` is the run-time panic. -/
def GoValue.assertString : GoValue → Option String
  | .string s => some s
  | _ => none

/-- Type assertion `v.(map[string]interface{})`; `none` is the run-time panic. -/
def GoValue.assertStrMap : GoValue → Option Record
  | .strMap m => some m
  | _ => none

/-- Type assertion `v.([]map[string]interface{})`; `none` is the run-time panic. -/
def GoValue.assertMapSlice : GoValue → Option Records
  | .mapSlice ms => some ms
  | _ => none

/-- Type assertion `v.([]string)`; `none` is the run-time panic. -/
def GoValue.assertStringSlice : GoValue → Option (Option (List String))
  | .stringSlice xs => some xs
  | _ => none

/-- Comparison `v == nil` of an interface value. -/
def GoValue.isNil : GoValue → Bool
  | .nil => true
  | _ => false

/-- The struct `ApiClient` (lines 13-17). -/
structure ApiClient where
  BaseUrl : String
  Token : String
  ClientId : String
  AppId : String
  Origin : String
  NotifyRealTime : Bool
  Filter : Record

/-- The struct `models.Options` as `SendRequest` fills it: `ClientId *string`,
`Notify *bool` (`none` is the nil pointer) and `Filter map[string]interface{}`. -/
structure Options where
  ClientId : Option String
  Notify : Option Bool
  Filter : Record

/-- Go `http.Header` restricted to single values: key and value pairs.  Keys
are kept as written; Go canonicalises the key in `Set` and in `Get` alike. -/
abbrev Header := List (String × String)

/-- Method `Header.Set`: replaces whatever the key held. -/
def Header.Set (h : Header) (k v : String) : Header :=
  (k, v) :: h.filter (fun p => p.1 != k)

/-- Method `Header.Get`, with `none` for a key that is not present. -/
def Header.Get (h : Header) (k : String) : Option String :=
  List.lookup k h

/-- The part of `http.Request` the client determines; `URL` is the parsed URL
in its string form. -/
structure Request where
  Method : String
  URL : String
  Body : String
  Header : Header

/-- The part of `http.Response` the client reads: the status code and what
`ioutil.ReadAll(res.Body)` returns. -/
structure Response where
  StatusCode : Int
  ReadAll : Except GoError String

/-- The collaborators outside `apiClient.go`. -/
structure Env where
  /-- Function `json.Marshal` on a non-nil body. -/
  Marshal : GoValue → Except GoError String
  /-- Function `validMethod` of net/http: whether `http.NewRequest` accepts the
  method. -/
  ValidMethod : String → Bool
  /-- The URL `http.NewRequest` stores in the request for a URL text
  (`url.Parse`), in its string form (`URL.String`, which escapes what needs
  escaping), or the parse error. -/
  ParseURL : String → Except GoError String
  /-- Method `models.Options.String`. -/
  OptionsString : Options → Except GoError String
  /-- Method `http.Client.Do`: the pair `(res, err)`. -/
  Do : Request → Option Response × Option GoError
  /-- Function `json.Unmarshal` into a `map[string]interface{}`. -/
  UnmarshalMap : String → Except GoError Record
  /-- Function `json.Unmarshal` into a `[]map[string]interface{}`. -/
  UnmarshalMapSlice : String → Except GoError Records

/-- Constant `http.StatusOK`. -/
def StatusOK : Int := 200

/-- Function `http.NewRequest`: an empty method means GET, the method has to
be valid, the URL is parsed and the request carries the parsed URL, the header
map starts empty. -/
def NewRequest (env : Env) (method url body : String) : Except GoError Request :=
  if env.ValidMethod (if method = "" then "GET" else method) then
    match env.ParseURL url with
    | .error e => .error e
    | .ok u => .ok { Method := if method = "" then "GET" else method, URL := u,
                     Body := body, Header := [] }
  else .error ("net/http: invalid method \"" ++ method ++ "\"")

/-- What one call of `SendRequest` does: the request handed to `client.Do`
(if the call got that far) and the returned pair `(interface{}, error)`. -/
structure Outcome where
  sent : Option Request
  result : GoValue
  err : Option GoError

/-! ## `SendRequest` (lines 61-164) -/

/-- Lines 73-82: the body string. -/
def marshalBody (env : Env) (body : GoValue) : Except GoError String :=
  if body.isNil then .ok "" else env.Marshal body

/-- Lines 90-102: the options value built for one request. -/
def requestOptions (c : ApiClient) : Options :=
  { ClientId := if c.ClientId ≠ "" then some c.ClientId else none,
    Notify := some c.NotifyRealTime,
    Filter := c.Filter }

/-- Lines 93-95: the Authorization header. -/
def setAuthorization (c : ApiClient) (req : Request) : Request :=
  if c.Token ≠ "" then { req with Header := req.Header.Set "Authorization" ("Bearer " ++ c.Token) }
  else req

/-- Lines 141-163: decoding of a body that was read. -/
def decodeBody (env : Env) (sent : Request) (bodyRes : String) (isArray : Bool) : Outcome :=
  if bodyRes = "" then ⟨some sent, .nil, none⟩
  else
    if isArray then
      match env.UnmarshalMapSlice bodyRes with
      | .error e => ⟨some sent, .nil, some e⟩
      | .ok jsonArray => ⟨some sent, .mapSlice jsonArray, none⟩
    else
      match env.UnmarshalMap bodyRes with
      | .error e => ⟨some sent, .nil, some e⟩
      | .ok m => ⟨some sent, .strMap m, none⟩

/-- Lines 112-163: dispatch of the built request and reading of the response.
The variable `err` of line 113 is the one returned at lines 116, 126 and 132. -/
def dispatch (env : Env) (req : Request) (isArray : Bool) : Outcome :=
  let res := (env.Do req).1
  let err := (env.Do req).2
  if err ≠ none then ⟨some req, .nil, err⟩
  else
    match res with
    | none => ⟨some req, .nil, none⟩
    | some res =>
      if res.StatusCode ≠ StatusOK then ⟨some req, .nil, err⟩
      else if err ≠ none then ⟨some req, .nil, err⟩
      else
        match res.ReadAll with
        | .error e => ⟨some req, .nil, some e⟩
        | .ok bodyRes => decodeBody env req bodyRes isArray

/-- Method `ApiClient.SendRequest`. -/
def SendRequest (env : Env) (c : ApiClient) (url method : String) (body : GoValue)
    (isArray : Bool) : Outcome :=
  match marshalBody env body with
  | .error e => ⟨none, .nil, some e⟩
  | .ok bodyStr =>
    match NewRequest env method (c.BaseUrl ++ url) bodyStr with
    | .error e => ⟨none, .nil, some e⟩
    | .ok req0 =>
      let req1 := setAuthorization c req0
      match env.OptionsString (requestOptions c) with
      | .error e => ⟨none, .nil, some e⟩
      | .ok optsS =>
        let req2 := { req1 with Header := req1.Header.Set "NeutrinoOptions" optsS }
        dispatch env req2 isArray

/-! ## Domain methods (lines 166-287) -/

/-- How a call of a domain method ends: it returns its pair (or its single
error, with `Unit` for the value), or a type assertion panics. -/
inductive Completion (α : Type) where
  | returned (value : α) (err : Option GoError)
  | panicked

/-- One call of a domain method: the request it handed to `client.Do`, the
receiver after the call, and how the call ended. -/
structure Call (α : Type) where
  sent : Option Request
  client : ApiClient
  out : Completion α

/-- The map literal with the keys "email" and "password". -/
def credentials (email password : String) : GoValue :=
  .strMap (some [("email", .string email), ("password", .string password)])

/-- Method `ApiClient.CreateApp` (lines 166-176). -/
def CreateApp (env : Env) (c : ApiClient) (name : String) : Call String :=
  let o := SendRequest env c "app" "POST" (.strMap (some [("name", .string name)])) false
  if o.result.isNil then ⟨o.sent, c, .returned "" o.err⟩
  else
    match o.result.assertStrMap with
    | none => ⟨o.sent, c, .panicked⟩
    | some m =>
      match (m.index "id").assertString with
      | none => ⟨o.sent, c, .panicked⟩
      | some id => ⟨o.sent, c, .returned id none⟩

/-- Method `ApiClient.GetApps` (lines 178-185). -/
def GetApps (env : Env) (c : ApiClient) : Call Records :=
  let o := SendRequest env c "app" "GET" .nil true
  if o.result.isNil then ⟨o.sent, c, .returned none o.err⟩
  else
    match o.result.assertMapSlice with
    | none => ⟨o.sent, c, .panicked⟩
    | some rs => ⟨o.sent, c, .returned rs none⟩

/-- Method `ApiClient.AppRegister` (lines 187-194). -/
def AppRegister (env : Env) (c : ApiClient) (email password : String) : Call Unit :=
  let o := SendRequest env c ("app/" ++ c.AppId ++ "/register") "POST"
    (credentials email password) false
  ⟨o.sent, c, .returned () o.err⟩

/-- Method `ApiClient.Register` (lines 196-203). -/
def Register (env : Env) (c : ApiClient) (email password : String) : Call Unit :=
  let o := SendRequest env c "register" "POST" (credentials email password) false
  ⟨o.sent, c, .returned () o.err⟩

/-- Method `ApiClient.AppLogin` (lines 205-218). -/
def AppLogin (env : Env) (c : ApiClient) (email password : String) : Call String :=
  let o := SendRequest env c ("app/" ++ c.AppId ++ "/login") "POST"
    (credentials email password) false
  if o.result.isNil then ⟨o.sent, c, .returned "" o.err⟩
  else
    match o.result.assertStrMap with
    | none => ⟨o.sent, c, .panicked⟩
    | some m =>
      match (m.index "token").assertString with
      | none => ⟨o.sent, c, .panicked⟩
      | some t => ⟨o.sent, { c with Token := t }, .returned t none⟩

/-- Method `ApiClient.Login` (lines 220-233). -/
def Login (env : Env) (c : ApiClient) (email password : String) : Call String :=
  let o := SendRequest env c "login" "POST" (credentials email password) false
  if o.result.isNil then ⟨o.sent, c, .returned "" o.err⟩
  else
    match o.result.assertStrMap with
    | none => ⟨o.sent, c, .panicked⟩
    | some m =>
      match (m.index "token").assertString with
      | none => ⟨o.sent, c, .panicked⟩
      | some t => ⟨o.sent, { c with Token := t }, .returned t none⟩

/-- The shared tail of the record-returning methods:
`if res == nil { return nil, err }; return res.(map[string]interface{}), err`. -/
def returnRecord (c : ApiClient) (o : Outcome) : Call Record :=
  if o.result.isNil then ⟨o.sent, c, .returned none o.err⟩
  else
    match o.result.assertStrMap with
    | none => ⟨o.sent, c, .panicked⟩
    | some m => ⟨o.sent, c, .returned m o.err⟩

/-- Method `ApiClient.CreateItem` (lines 235-242). -/
def CreateItem (env : Env) (c : ApiClient) (t : String) (m : Record) : Call Record :=
  returnRecord c (SendRequest env c ("app/" ++ c.AppId ++ "/data/" ++ t) "POST" (.strMap m) false)

/-- Method `ApiClient.UpdateItem` (lines 244-251). -/
def UpdateItem (env : Env) (c : ApiClient) (t id : String) (m : Record) : Call Record :=
  returnRecord c
    (SendRequest env c ("app/" ++ c.AppId ++ "/data/" ++ t ++ "/" ++ id) "PUT" (.strMap m) false)

/-- Method `ApiClient.DeleteItem` (lines 253-260). -/
def DeleteItem (env : Env) (c : ApiClient) (t id : String) : Call Record :=
  returnRecord c
    (SendRequest env c ("app/" ++ c.AppId ++ "/data/" ++ t ++ "/" ++ id) "DELETE" .nil false)

/-- Method `ApiClient.GetCollections` (lines 262-269). -/
def GetCollections (env : Env) (c : ApiClient) : Call (Option (List String)) :=
  let o := SendRequest env c ("app/" ++ c.AppId ++ "/data") "GET" .nil false
  if o.result.isNil then ⟨o.sent, c, .returned none o.err⟩
  else
    match o.result.assertStringSlice with
    | none => ⟨o.sent, c, .panicked⟩
    | some xs => ⟨o.sent, c, .returned xs o.err⟩

/-- Method `ApiClient.GetItem` (lines 271-278). -/
def GetItem (env : Env) (c : ApiClient) (t id : String) : Call Record :=
  returnRecord c
    (SendRequest env c ("app/" ++ c.AppId ++ "/data/" ++ t ++ "/" ++ id) "GET" .nil false)

/-- Method `ApiClient.GetItems` (lines 280-287). -/
def GetItems (env : Env) (c : ApiClient) (t : String) : Call Records :=
  let o := SendRequest env c ("app/" ++ c.AppId ++ "/data/" ++ t) "GET" .nil true
  if o.result.isNil then ⟨o.sent, c, .returned none o.err⟩
  else
    match o.result.assertMapSlice with
    | none => ⟨o.sent, c, .panicked⟩
    | some rs => ⟨o.sent, c, .returned rs o.err⟩

/-! ## The client cache (lines 19-59) -/

/-- The package-level variables.  A `*ApiClient` is an address into `heap`, the
list of the `ApiClient` objects allocated so far; `clientCache` holds only
addresses that `NewApiClient` returned, so a lookup that finds nothing is the
nil pointer of line 41. -/
structure Package where
  clientCache : List (String × Nat)
  heap : List ApiClient
  _httpAddr : String
  _wsAddr : String
  _token : String
  _origin : String

/-- Map assignment `m[k] = v`. -/
def mapAssign (m : List (String × Nat)) (k : String) (v : Nat) : List (String × Nat) :=
  (k, v) :: m.filter (fun p => p.1 != k)

/-- The package after `init()` (lines 21-23): an empty cache, nothing allocated,
the configuration strings at their zero value. -/
def Package.init : Package :=
  { clientCache := [], heap := [], _httpAddr := "", _wsAddr := "", _token := "", _origin := "" }

/-- Function `InitClient` (lines 29-34). -/
def InitClient (httpAddr wsAddr token origin : String) (s : Package) : Package :=
  { s with _httpAddr := httpAddr, _wsAddr := wsAddr, _token := token, _origin := origin }

/-- Function `NewApiClient` (lines 48-59): allocates a client and returns its
address. -/
def NewApiClient (appId : String) (s : Package) : Nat × Package :=
  (s.heap.length,
   { s with heap := s.heap ++ [{ BaseUrl := s._httpAddr, Token := s._token, ClientId := "",
                                 NotifyRealTime := false, AppId := appId, Origin := s._origin,
                                 Filter := none }] })

/-- Function `NewApiClientCached` (lines 40-46); the returned pointer is
`clientCache[appId]` as read at line 45, `none` being nil. -/
def NewApiClientCached (appId : String) (s : Package) : Option Nat × Package :=
  let s1 :=
    if (List.lookup appId s.clientCache).isNone then
      let r := NewApiClient appId s
      { r.2 with clientCache := mapAssign r.2.clientCache appId r.1 }
    else s
  (List.lookup appId s1.clientCache, s1)

/-- Function `NewApiClientClean` (lines 36-38). -/
def NewApiClientClean (s : Package) : Option Nat × Package :=
  NewApiClientCached "" s

/-- Reading through a pointer. -/
def Package.deref (s : Package) (p : Option Nat) : Option ApiClient :=
  p.bind (fun a => s.heap[a]?)

/-- Writing a client object through a pointer (any field assignment
`c.F = v`, such as line 215); nothing happens on a dangling address. -/
def Package.store (s : Package) (p : Nat) (c : ApiClient) : Package :=
  { s with heap := s.heap.set p c }

/-- One thing a program can do to the package state: call one of the exported
functions, or assign to a field of a client it holds. -/
inductive Step : Package → Package → Prop where
  | initClient (s : Package) (h w t o : String) : Step s (InitClient h w t o s)
  | newApiClient (s : Package) (appId : String) : Step s (NewApiClient appId s).2
  | newApiClientCached (s : Package) (appId : String) : Step s (NewApiClientCached appId s).2
  | newApiClientClean (s : Package) : Step s (NewApiClientClean s).2
  | store (s : Package) (p : Nat) (c : ApiClient) : Step s (s.store p c)

/-- The states a program can reach from package initialisation. -/
def Reachable (s : Package) : Prop := Relation.ReflTransGen Step Package.init s

/-- The cache invariant: cached addresses are allocated, the cache has one
entry per key, and no two keys share an address. -/
structure CacheInv (s : Package) : Prop where
  live : ∀ kv ∈ s.clientCache, kv.2 < s.heap.length
  keys : (s.clientCache.map Prod.fst).Nodup
  addrs : (s.clientCache.map Prod.snd).Nodup

/-- The request `SendRequest` hands to `client.Do`, when construction succeeds. -/
def builtRequest (c : ApiClient) (req0 : Request) (optsS : String) : Request :=
  { setAuthorization c req0 with
    Header := (setAuthorization c req0).Header.Set "NeutrinoOptions" optsS }

/-! ## The interface table (spec section 6) and the calls of the domain methods -/

/-- One call of a domain method with its arguments. -/
inductive DomainCall where
  | createApp (name : String)
  | getApps
  | register (email password : String)
  | login (email password : String)
  | appRegister (email password : String)
  | appLogin (email password : String)
  | createItem (t : String) (m : Record)
  | getItems (t : String)
  | updateItem (t id : String) (m : Record)
  | deleteItem (t id : String)
  | getItem (t id : String)
  | getCollections

/-- The request a domain call hands to `client.Do`, if it gets that far. -/
def DomainCall.issued (env : Env) (c : ApiClient) : DomainCall → Option Request
  | .createApp name => (CreateApp env c name).sent
  | .getApps => (GetApps env c).sent
  | .register e p => (Register env c e p).sent
  | .login e p => (Login env c e p).sent
  | .appRegister e p => (AppRegister env c e p).sent
  | .appLogin e p => (AppLogin env c e p).sent
  | .createItem t m => (CreateItem env c t m).sent
  | .getItems t => (GetItems env c t).sent
  | .updateItem t id m => (UpdateItem env c t id m).sent
  | .deleteItem t id => (DeleteItem env c t id).sent
  | .getItem t id => (GetItem env c t id).sent
  | .getCollections => (GetCollections env c).sent

/-- The HTTP method of each call in the interface table. -/
def DomainCall.tableMethod : DomainCall → String
  | .createApp _ => "POST"
  | .getApps => "GET"
  | .register _ _ => "POST"
  | .login _ _ => "POST"
  | .appRegister _ _ => "POST"
  | .appLogin _ _ => "POST"
  | .createItem _ _ => "POST"
  | .getItems _ => "GET"
  | .updateItem _ _ _ => "PUT"
  | .deleteItem _ _ => "DELETE"
  | .getItem _ _ => "GET"
  | .getCollections => "GET"

/-- The path template of each call as the interface table writes it, with the
leading slash, `app` being the client's AppId. -/
def DomainCall.tablePath (app : String) : DomainCall → String
  | .createApp _ => "/app"
  | .getApps => "/app"
  | .register _ _ => "/register"
  | .login _ _ => "/login"
  | .appRegister _ _ => "/app/" ++ app ++ "/register"
  | .appLogin _ _ => "/app/" ++ app ++ "/login"
  | .createItem t _ => "/app/" ++ app ++ "/data/" ++ t
  | .getItems t => "/app/" ++ app ++ "/data/" ++ t
  | .updateItem t id _ => "/app/" ++ app ++ "/data/" ++ t ++ "/" ++ id
  | .deleteItem t id => "/app/" ++ app ++ "/data/" ++ t ++ "/" ++ id
  | .getItem t id => "/app/" ++ app ++ "/data/" ++ t ++ "/" ++ id
  | .getCollections => "/app/" ++ app ++ "/data"

/-- The path template of the table without its leading slash. -/
def DomainCall.relativePath (app : String) : DomainCall → String
  | .createApp _ => "app"
  | .getApps => "app"
  | .register _ _ => "register"
  | .login _ _ => "login"
  | .appRegister _ _ => "app/" ++ app ++ "/register"
  | .appLogin _ _ => "app/" ++ app ++ "/login"
  | .createItem t _ => "app/" ++ app ++ "/data/" ++ t
  | .getItems t => "app/" ++ app ++ "/data/" ++ t
  | .updateItem t id _ => "app/" ++ app ++ "/data/" ++ t ++ "/" ++ id
  | .deleteItem t id => "app/" ++ app ++ "/data/" ++ t ++ "/" ++ id
  | .getItem t id => "app/" ++ app ++ "/data/" ++ t ++ "/" ++ id
  | .getCollections => "app/" ++ app ++ "/data"

/-- The body each domain method passes to `SendRequest`. -/
def DomainCall.body : DomainCall → GoValue
  | .createApp name => .strMap (some [("name", .string name)])
  | .getApps => .nil
  | .register e p => credentials e p
  | .login e p => credentials e p
  | .appRegister e p => credentials e p
  | .appLogin e p => credentials e p
  | .createItem _ m => .strMap m
  | .getItems _ => .nil
  | .updateItem _ _ m => .strMap m
  | .deleteItem _ _ => .nil
  | .getItem _ _ => .nil
  | .getCollections => .nil

/-- The shape hint each domain method passes to `SendRequest`. -/
def DomainCall.isArray : DomainCall → Bool
  | .getApps => true
  | .getItems _ => true
  | _ => false

/-! ## Reference collaborators

An instance of `Env` on which the client can be evaluated at concrete inputs:
a reader and a writer for JSON without number literals (a `float64` is outside
the model) and without surrogate escapes, the method check of net/http, a URL
parser for plain http URLs whose path needs no escaping but of spaces (other
URLs are reported as errors), the options encoder modelled from the spec, and
a scripted server.
The theorems about the client hold for every `Env`; this instance only
supplies concrete inputs. -/

/-- JSON insignificant whitespace. -/
def isSpace (c : Char) : Bool := c = ' ' || c = '\n' || c = '\t' || c = '\r'

/-- Drops leading whitespace. -/
def skipSpace : List Char → List Char
  | [] => []
  | c :: cs => if isSpace c then skipSpace cs else c :: cs

/-- The value of a hexadecimal digit. -/
def hexVal (c : Char) : Option Nat :=
  if 48 ≤ c.toNat ∧ c.toNat ≤ 57 then some (c.toNat - 48)
  else if 97 ≤ c.toNat ∧ c.toNat ≤ 102 then some (c.toNat - 87)
  else if 65 ≤ c.toNat ∧ c.toNat ≤ 70 then some (c.toNat - 55)
  else none

/-- The character of a `\u` escape with four hexadecimal digits; `none` for a
surrogate half. -/
def hexChar (a b c d : Char) : Option Char :=
  match hexVal a, hexVal b, hexVal c, hexVal d with
  | some x, some y, some z, some w =>
    if 55296 ≤ ((x * 16 + y) * 16 + z) * 16 + w ∧ ((x * 16 + y) * 16 + z) * 16 + w ≤ 57343 then none
    else some (Char.ofNat (((x * 16 + y) * 16 + z) * 16 + w))
  | _, _, _, _ => none

/-- The character a one-letter backslash escape stands for. -/
def unescape (c : Char) : Option Char :=
  if c = '"' then some '"'
  else if c = '\\' then some '\\'
  else if c = '/' then some '/'
  else if c = 'n' then some '\n'
  else if c = 't' then some '\t'
  else if c = 'r' then some '\r'
  else if c = 'b' then some (Char.ofNat 8)
  else if c = 'f' then some (Char.ofNat 12)
  else none

/-- Reads a string literal after its opening quote: the characters and the
rest of the input. -/
def readString : List Char → Option (List Char × List Char)
  | [] => none
  | c :: cs =>
    if c = '"' then some ([], cs)
    else if c = '\\' then
      match cs with
      | [] => none
      | e :: rest =>
        if e = 'u' then
          match rest with
          | h1 :: h2 :: h3 :: h4 :: rest4 =>
            match hexChar h1 h2 h3 h4, readString rest4 with
            | some ch, some (s, r) => some (ch :: s, r)
            | _, _ => none
          | _ => none
        else
          match unescape e, readString rest with
          | some ch, some (s, r) => some (ch :: s, r)
          | _, _ => none
    else if c.toNat < 32 then none
    else
      match readString cs with
      | some (s, r) => some (c :: s, r)
      | none => none

/-- Stores a member of an object; a repeated key keeps its last value. -/
def putMember (m : List (String × GoValue)) (k : String) (v : GoValue) :
    List (String × GoValue) :=
  m.filter (fun p => p.1 != k) ++ [(k, v)]

mutual
/-- Reads one JSON value as `json.Unmarshal` stores it in an `interface{}`:
null as nil, an array as `[]interface{}`, an object as
`map[string]interface{}`. -/
def readValue : Nat → List Char → Option (GoValue × List Char)
  | 0, _ => none
  | n + 1, cs =>
    match skipSpace cs with
    | [] => none
    | c :: r =>
      if c = '"' then
        match readString r with
        | some (s, r1) => some (.string (String.mk s), r1)
        | none => none
      else if c = '{' then
        match skipSpace r with
        | [] => none
        | d :: r1 =>
          if d = '}' then some (.strMap (some []), r1)
          else
            match readMembers n [] (d :: r1) with
            | some (m, r2) => some (.strMap (some m), r2)
            | none => none
      else if c = '[' then
        match skipSpace r with
        | [] => none
        | d :: r1 =>
          if d = ']' then some (.ifaceSlice (some []), r1)
          else
            match readElements n (d :: r1) with
            | some (xs, r2) => some (.ifaceSlice (some xs), r2)
            | none => none
      else if c = 't' then
        if r.take 3 = ['r', 'u', 'e'] then some (.bool true, r.drop 3) else none
      else if c = 'f' then
        if r.take 4 = ['a', 'l', 's', 'e'] then some (.bool false, r.drop 4) else none
      else if c = 'n' then
        if r.take 3 = ['u', 'l', 'l'] then some (.nil, r.drop 3) else none
      else none
/-- Reads the elements of an array up to its closing bracket. -/
def readElements : Nat → List Char → Option (List GoValue × List Char)
  | 0, _ => none
  | n + 1, cs =>
    match readValue n cs with
    | none => none
    | some (v, r) =>
      match skipSpace r with
      | [] => none
      | d :: r1 =>
        if d = ',' then
          match readElements n r1 with
          | some (vs, r2) => some (v :: vs, r2)
          | none => none
        else if d = ']' then some ([v], r1)
        else none
/-- Reads the members of an object up to its closing brace. -/
def readMembers : Nat → List (String × GoValue) → List Char →
    Option (List (String × GoValue) × List Char)
  | 0, _, _ => none
  | n + 1, acc, cs =>
    match skipSpace cs with
    | [] => none
    | c :: r =>
      if c = '"' then
        match readString r with
        | none => none
        | some (k, r1) =>
          match skipSpace r1 with
          | [] => none
          | d :: r2 =>
            if d = ':' then
              match readValue n r2 with
              | none => none
              | some (v, r3) =>
                match skipSpace r3 with
                | [] => none
                | e :: r4 =>
                  if e = ',' then readMembers n (putMember acc (String.mk k) v) r4
                  else if e = '}' then some (putMember acc (String.mk k) v, r4)
                  else none
            else none
      else none
end

/-- Reads a whole text as one JSON value; nothing but whitespace may follow. -/
def readJSON (s : String) : Option GoValue :=
  match readValue (2 * s.length + 2) s.data with
  | some (v, r) => if skipSpace r = [] then some v else none
  | none => none

/-- A hexadecimal digit, lower case. -/
def hexDigit (k : Nat) : Char := Char.ofNat (if k < 10 then 48 + k else 87 + k)

/-- The escape of one character inside a string literal, as `json.Marshal`
writes it. -/
def escapeChar (c : Char) : List Char :=
  if c = '"' then ['\\', '"']
  else if c = '\\' then ['\\', '\\']
  else if c = '\n' then ['\\', 'n']
  else if c = '\r' then ['\\', 'r']
  else if c = '\t' then ['\\', 't']
  else if c.toNat < 32 ∨ c = '<' ∨ c = '>' ∨ c = '&' ∨ c.toNat = 8232 ∨ c.toNat = 8233 then
    ['\\', 'u', hexDigit (c.toNat / 4096 % 16), hexDigit (c.toNat / 256 % 16),
      hexDigit (c.toNat / 16 % 16), hexDigit (c.toNat % 16)]
  else [c]

/-- A string literal. -/
def quote (s : String) : List Char :=
  '"' :: (s.data.flatMap escapeChar ++ ['"'])

/-- Texts separated by commas. -/
def joinComma : List (List Char) → List Char
  | [] => []
  | [x] => x
  | x :: y :: ys => x ++ ',' :: joinComma (y :: ys)

mutual
/-- Writes a value as JSON text, the members of a map in stored order;
`none` for a `float64`. -/
def render : GoValue → Option (List Char)
  | .nil => some ['n', 'u', 'l', 'l']
  | .bool b => some (if b then ['t', 'r', 'u', 'e'] else ['f', 'a', 'l', 's', 'e'])
  | .float64 _ => none
  | .string s => some (quote s)
  | .ifaceSlice none => some ['n', 'u', 'l', 'l']
  | .ifaceSlice (some xs) => (renderElements xs).map (fun ys => '[' :: (joinComma ys ++ [']']))
  | .stringSlice none => some ['n', 'u', 'l', 'l']
  | .stringSlice (some xs) => some ('[' :: (joinComma (xs.map quote) ++ [']']))
  | .strMap none => some ['n', 'u', 'l', 'l']
  | .strMap (some m) => (renderMembers m).map (fun ys => '{' :: (joinComma ys ++ ['}']))
  | .mapSlice none => some ['n', 'u', 'l', 'l']
  | .mapSlice (some ms) => (renderMaps ms).map (fun ys => '[' :: (joinComma ys ++ [']']))
/-- Writes the elements of a slice. -/
def renderElements : List GoValue → Option (List (List Char))
  | [] => some []
  | v :: vs =>
    match render v, renderElements vs with
    | some y, some ys => some (y :: ys)
    | _, _ => none
/-- Writes the members of a map. -/
def renderMembers : List (String × GoValue) → Option (List (List Char))
  | [] => some []
  | (k, v) :: kvs =>
    match render v, renderMembers kvs with
    | some y, some ys => some ((quote k ++ ':' :: y) :: ys)
    | _, _ => none
/-- Writes the maps of a slice of maps. -/
def renderMaps : List (Option (List (String × GoValue))) → Option (List (List Char))
  | [] => some []
  | none :: ms => (renderMaps ms).map (fun ys => ['n', 'u', 'l', 'l'] :: ys)
  | some m :: ms =>
    match renderMembers m, renderMaps ms with
    | some y, some ys => some (('{' :: (joinComma y ++ ['}'])) :: ys)
    | _, _ => none
end

mutual
/-- The values that JSON text gives back exactly: null, booleans, strings,
non-nil `[]interface{}` and non-nil `map[string]interface{}` of such values,
a map holding each key once. -/
def jsonNative : GoValue → Bool
  | .nil => true
  | .bool _ => true
  | .string _ => true
  | .ifaceSlice (some xs) => jsonNativeList xs
  | .strMap (some m) => jsonNativeMembers m && decide ((m.map Prod.fst).Nodup)
  | _ => false
/-- Every element is `jsonNative`. -/
def jsonNativeList : List GoValue → Bool
  | [] => true
  | v :: vs => jsonNative v && jsonNativeList vs
/-- Every member value is `jsonNative`. -/
def jsonNativeMembers : List (String × GoValue) → Bool
  | [] => true
  | (_, v) :: kvs => jsonNative v && jsonNativeMembers kvs
end

/-- The first character of a JSON value. -/
def valueHead (c : Char) : Prop :=
  c = '"' ∨ c = '{' ∨ c = '[' ∨ c = 't' ∨ c = 'f' ∨ c = 'n'

/-- The kind of a JSON value in the messages of `encoding/json`. -/
def jsonKind : GoValue → String
  | .bool _ => "bool"
  | .float64 _ => "number"
  | .string _ => "string"
  | .strMap _ => "object"
  | _ => "array"

/-- What `json.Unmarshal` stores in a `map[string]interface{}`: an object, or
null as the nil map; any other value is a type error. -/
def toRecord : GoValue → Except GoError Record
  | .nil => .ok none
  | .strMap m => .ok m
  | v => .error ("json: cannot unmarshal " ++ jsonKind v ++
      " into Go value of type map[string]interface {}")

/-- The elements of an array as maps. -/
def toRecordList : List GoValue → Except GoError (List Record)
  | [] => .ok []
  | v :: vs =>
    match toRecord v, toRecordList vs with
    | .ok m, .ok ms => .ok (m :: ms)
    | .error e, _ => .error e
    | _, .error e => .error e

/-- What `json.Unmarshal` stores in a `[]map[string]interface{}`: an array of
objects and nulls, or null as the nil slice. -/
def toRecords : GoValue → Except GoError Records
  | .nil => .ok none
  | .ifaceSlice (some vs) =>
    match toRecordList vs with
    | .ok ms => .ok (some ms)
    | .error e => .error e
  | v => .error ("json: cannot unmarshal " ++ jsonKind v ++
      " into Go value of type []map[string]interface {}")

/-- Reference `json.Unmarshal(body, &m)` for a map `m`. -/
def refUnmarshalMap (body : String) : Except GoError Record :=
  match readJSON body with
  | none => .error "json: invalid or unsupported text"
  | some v => toRecord v

/-- Reference `json.Unmarshal(body, &jsonArray)` for a slice of maps. -/
def refUnmarshalMapSlice (body : String) : Except GoError Records :=
  match readJSON body with
  | none => .error "json: invalid or unsupported text"
  | some v => toRecords v

/-- Reference `json.Marshal`. -/
def refMarshal (v : GoValue) : Except GoError String :=
  match render v with
  | some cs => .ok (String.mk cs)
  | none => .error "json: unsupported value"

/-- Modelled from the spec: the encoded form of `models.Options`, which is not
among the source files: a JSON object with the members "notify" and "filter",
and "clientId" only when a client id is present. -/
def optionsValue (o : Options) : GoValue :=
  .strMap (some
    ((match o.ClientId with
      | some id => [("clientId", GoValue.string id)]
      | none => []) ++
     [("notify", match o.Notify with
        | some b => GoValue.bool b
        | none => GoValue.nil),
      ("filter", match o.Filter with
        | some m => GoValue.strMap (some m)
        | none => GoValue.nil)]))

/-- Modelled from the spec: the Options Encoder (`models.Options.String`, not
among the source files).  It writes the canonical JSON form, and reports an
encoding failure for a filter value that JSON does not give back exactly. -/
def specOptionsString (o : Options) : Except GoError String :=
  if jsonNative (optionsValue o) then
    match render (optionsValue o) with
    | some cs => .ok (String.mk cs)
    | none => .error "options: value cannot be written"
  else .error "options: filter is not serializable"

/-- Modelled from the spec: the decoding of the Options Encoder output on the
receiving side. -/
def specOptionsRead (s : String) : Option Options :=
  match readJSON s with
  | some (.strMap (some m)) =>
    some { ClientId := match List.lookup "clientId" m with
             | some (.string id) => some id
             | _ => none,
           Notify := match List.lookup "notify" m with
             | some (.bool b) => some b
             | _ => none,
           Filter := match List.lookup "filter" m with
             | some (.strMap f) => f
             | _ => none }
  | _ => none

/-- Function `httpguts.IsTokenRune`: the characters of an HTTP token. -/
def isTokenChar (c : Char) : Bool :=
  c.isAlphanum || c.toNat = 33 || (35 ≤ c.toNat && c.toNat ≤ 39) || c.toNat = 42 ||
    c.toNat = 43 || c.toNat = 45 || c.toNat = 46 || c.toNat = 94 || c.toNat = 95 ||
    c.toNat = 96 || c.toNat = 124 || c.toNat = 126

/-- Function `validMethod` of net/http: a non-empty token. -/
def refValidMethod (m : String) : Bool :=
  !m.data.isEmpty && m.data.all isTokenChar

/-- Host characters of the plain URLs. -/
def isHostChar (c : Char) : Bool := c.isAlphanum || c = '.' || c = '-'

/-- Path characters that `url.Parse` and `URL.String` leave as they are. -/
def isPathChar (c : Char) : Bool :=
  c.isAlphanum || c = '/' || c = '-' || c = '.' || c = '_' || c = '~'

/-- The input after the scheme `http://` or `https://`. -/
def afterScheme (cs : List Char) : Option (List Char) :=
  if "http://".data.isPrefixOf cs then some (cs.drop 7)
  else if "https://".data.isPrefixOf cs then some (cs.drop 8)
  else none

/-- The input after an optional port, which has to be decimal digits. -/
def afterPort (cs : List Char) : Option (List Char) :=
  match cs with
  | ':' :: p => if (p.takeWhile Char.isDigit).isEmpty then none else some (p.dropWhile Char.isDigit)
  | _ => some cs

/-- An empty path, or a path that starts with a slash and holds only spaces
and characters that need no escaping. -/
def plainPath (cs : List Char) : Bool :=
  match cs with
  | [] => true
  | c :: _ => c = '/' && cs.all (fun x => isPathChar x || x = ' ')

/-- The escaping of `URL.String` on the plain URLs: a space becomes `%20`. -/
def escapeSpaces : List Char → List Char
  | [] => []
  | c :: cs => if c = ' ' then '%' :: '2' :: '0' :: escapeSpaces cs else c :: escapeSpaces cs

/-- Reference `url.Parse` with `URL.String` on plain URLs: scheme, host,
optional port and a path of spaces and characters that need no escaping; the
URL comes back with its spaces escaped.  Every other text is reported as an
error. -/
def refParseURL (u : String) : Except GoError String :=
  match afterScheme u.data with
  | none => .error "parse: unsupported URL"
  | some r =>
    if (r.takeWhile isHostChar).isEmpty then .error "parse: unsupported URL"
    else
      match afterPort (r.dropWhile isHostChar) with
      | none => .error "parse: invalid port"
      | some p =>
        if plainPath p then .ok (String.mk (escapeSpaces u.data))
        else .error "parse: unsupported URL"

/-- The reference environment around a scripted server. -/
def refEnv (server : Request → Option Response × Option GoError) : Env :=
  { Marshal := refMarshal,
    ValidMethod := refValidMethod,
    ParseURL := refParseURL,
    OptionsString := specOptionsString,
    Do := server,
    UnmarshalMap := refUnmarshalMap,
    UnmarshalMapSlice := refUnmarshalMapSlice }

/-- A server that answers every request with one status code and body. -/
def respond (status : Int) (body : String) : Request → Option Response × Option GoError :=
  fun _ => (some { StatusCode := status, ReadAll := .ok body }, none)

/-- A client as `NewApiClient` builds it from configuration. -/
def sampleClient : ApiClient :=
  { BaseUrl := "http://localhost:5000/v1/", Token := "", ClientId := "", AppId := "app1",
    Origin := "", NotifyRealTime := false, Filter := none }

/-- Either login method: `AppLogin` when `app` is true, `Login` otherwise. -/
def loginCall (app : Bool) (env : Env) (c : ApiClient) (email password : String) : Call String :=
  if app then AppLogin env c email password else Login env c email password

/-- The relative url of either login method. -/
def loginUrl (app : Bool) (c : ApiClient) : String :=
  if app then "app/" ++ c.AppId ++ "/login" else "login"

/-! ## Lemmas on headers and on the pipeline -/

theorem lookup_filter_ne {β : Type} (k k' : String) (h : k ≠ k') (l : List (String × β)) :
    List.lookup k (l.filter (fun p => p.1 != k')) = List.lookup k l := by
  induction l with
  | nil => rfl
  | cons x xs ih =>
    obtain ⟨a, b⟩ := x
    by_cases hak : a = k'
    · subst hak
      have hk : (k == a) = false := by simpa using h
      simp [List.filter, List.lookup, hk, ih]
    · have hne : (a != k') = true := by simpa using hak
      simp only [List.filter, hne, List.lookup, ih]

theorem Header.get_set_self (h : Header) (k v : String) : (h.Set k v).Get k = some v := by
  simp [Header.Set, Header.Get, List.lookup]

theorem Header.get_set_ne (h : Header) (k k' v : String) (hk : k ≠ k') :
    (h.Set k' v).Get k = h.Get k := by
  have hb : (k == k') = false := by simpa using hk
  simp [Header.Set, Header.Get, List.lookup, hb, lookup_filter_ne k k' hk]

theorem decodeBody_sent (env : Env) (req : Request) (b : String) (isArray : Bool) :
    (decodeBody env req b isArray).sent = some req := by
  unfold decodeBody
  split
  · rfl
  · split
    · split <;> rfl
    · split <;> rfl

theorem dispatch_sent (env : Env) (req : Request) (isArray : Bool) :
    (dispatch env req isArray).sent = some req := by
  unfold dispatch
  simp only
  repeat (first | rfl | exact decodeBody_sent _ _ _ _ | split)

theorem SendRequest_of_built (env : Env) (c : ApiClient) (url method : String) (body : GoValue)
    (isArray : Bool) (bodyStr : String) (req0 : Request) (optsS : String)
    (hb : marshalBody env body = .ok bodyStr)
    (hr : NewRequest env method (c.BaseUrl ++ url) bodyStr = .ok req0)
    (ho : env.OptionsString (requestOptions c) = .ok optsS) :
    SendRequest env c url method body isArray = dispatch env (builtRequest c req0 optsS) isArray := by
  simp [SendRequest, hb, hr, ho, builtRequest]

theorem SendRequest_sent_inv (env : Env) (c : ApiClient) (url method : String) (body : GoValue)
    (isArray : Bool) (req : Request)
    (h : (SendRequest env c url method body isArray).sent = some req) :
    ∃ bodyStr req0 optsS, marshalBody env body = .ok bodyStr ∧
      NewRequest env method (c.BaseUrl ++ url) bodyStr = .ok req0 ∧
      env.OptionsString (requestOptions c) = .ok optsS ∧
      req = builtRequest c req0 optsS := by
  unfold SendRequest at h
  split at h
  · simp at h
  · rename_i bodyStr hb
    split at h
    · simp at h
    · rename_i req0 hr
      simp only at h
      split at h
      · simp at h
      · rename_i optsS ho
        rw [dispatch_sent] at h
        exact ⟨bodyStr, req0, optsS, hb, hr, ho, (Option.some.inj h).symm⟩

theorem NewRequest_inv (env : Env) (method url body : String) (req0 : Request)
    (h : NewRequest env method url body = .ok req0) :
    req0.Header = [] ∧ req0.Method = (if method = "" then "GET" else method) ∧
      env.ParseURL url = .ok req0.URL ∧ req0.Body = body ∧
      env.ValidMethod (if method = "" then "GET" else method) = true := by
  unfold NewRequest at h
  by_cases hv : env.ValidMethod (if method = "" then "GET" else method) = true
  · rw [if_pos hv] at h
    cases hu : env.ParseURL url with
    | error e =>
      rw [hu] at h
      exact Except.noConfusion h
    | ok u =>
      rw [hu] at h
      have hreq := (Except.ok.inj h).symm
      subst hreq
      exact ⟨rfl, rfl, rfl, rfl, hv⟩
  · rw [if_neg hv] at h
    exact Except.noConfusion h

theorem NewRequest_ok (env : Env) (method url body u : String)
    (hv : env.ValidMethod (if method = "" then "GET" else method) = true)
    (hu : env.ParseURL url = .ok u) :
    NewRequest env method url body =
      .ok { Method := if method = "" then "GET" else method, URL := u, Body := body,
            Header := [] } := by
  simp [NewRequest, hv, hu]

theorem builtRequest_authorization (c : ApiClient) (req0 : Request) (optsS : String)
    (h0 : req0.Header = []) :
    (builtRequest c req0 optsS).Header.Get "Authorization" =
      if c.Token = "" then none else some ("Bearer " ++ c.Token) := by
  unfold builtRequest
  simp only
  rw [Header.get_set_ne _ _ _ _ (by decide)]
  unfold setAuthorization
  by_cases ht : c.Token = ""
  · simp [ht, h0, Header.Get]
  · simp [ht, Header.get_set_self]

theorem dispatch_response (env : Env) (req : Request) (isArray : Bool) (res : Response)
    (hd : env.Do req = (some res, none)) :
    dispatch env req isArray =
      if res.StatusCode ≠ StatusOK then ⟨some req, .nil, none⟩
      else
        match res.ReadAll with
        | .error e => ⟨some req, .nil, some e⟩
        | .ok bodyRes => decodeBody env req bodyRes isArray := by
  unfold dispatch
  simp [hd]

/-- A response with a status other than 200 ends the call with a nil result
and the nil error of line 113. -/
theorem dispatch_non200 (env : Env) (req : Request) (isArray : Bool) (res : Response)
    (hd : env.Do req = (some res, none)) (hs : res.StatusCode ≠ StatusOK) :
    dispatch env req isArray = ⟨some req, .nil, none⟩ := by
  rw [dispatch_response env req isArray res hd, if_pos hs]

theorem dispatch_ok (env : Env) (req : Request) (isArray : Bool) (res : Response)
    (bodyRes : String) (hd : env.Do req = (some res, none)) (hs : res.StatusCode = StatusOK)
    (hr : res.ReadAll = .ok bodyRes) :
    dispatch env req isArray = decodeBody env req bodyRes isArray := by
  rw [dispatch_response env req isArray res hd, if_neg (by simp [hs]), hr]

theorem SendRequest_of_sent (env : Env) (c : ApiClient) (url method : String) (body : GoValue)
    (isArray : Bool) (req : Request)
    (h : (SendRequest env c url method body isArray).sent = some req) :
    SendRequest env c url method body isArray = dispatch env req isArray := by
  obtain ⟨bodyStr, req0, optsS, hb, hr, ho, rfl⟩ := SendRequest_sent_inv _ _ _ _ _ _ _ h
  exact SendRequest_of_built _ _ _ _ _ _ _ _ _ hb hr ho

/-! ## Claims -/

/-- C1: whenever `SendRequest` gets as far as building the request
(`http.NewRequest` succeeds at line 84), the request as it stands after
line 95, and every request handed to `client.Do`, carries an Authorization
header if and only if the client Token is not the empty string, and the value
of the header is "Bearer " followed by the Token. -/
theorem SendRequest_authorization (env : Env) (c : ApiClient) (url method : String)
    (body : GoValue) (isArray : Bool) (bodyStr : String) (req0 : Request)
    (hr : NewRequest env method (c.BaseUrl ++ url) bodyStr = .ok req0) :
    (((∃ v, (setAuthorization c req0).Header.Get "Authorization" = some v) ↔ c.Token ≠ "") ∧
      (∀ v, (setAuthorization c req0).Header.Get "Authorization" = some v →
        v = "Bearer " ++ c.Token)) ∧
    (∀ req, (SendRequest env c url method body isArray).sent = some req →
      ((∃ v, req.Header.Get "Authorization" = some v) ↔ c.Token ≠ "") ∧
      (∀ v, req.Header.Get "Authorization" = some v → v = "Bearer " ++ c.Token)) := by
  have h0 : req0.Header = [] := (NewRequest_inv _ _ _ _ _ hr).1
  constructor
  · unfold setAuthorization
    by_cases ht : c.Token = ""
    · simp [ht, h0, Header.Get]
    · simp [ht, Header.get_set_self]
  · intro req hs
    obtain ⟨bodyStr1, req1, optsS, hb1, hr1, _, rfl⟩ := SendRequest_sent_inv _ _ _ _ _ _ _ hs
    have h1 : req1.Header = [] := (NewRequest_inv _ _ _ _ _ hr1).1
    rw [builtRequest_authorization c req1 optsS h1]
    by_cases ht : c.Token = ""
    · simp [ht]
    · simp [ht]

/-- C1 at a concrete input: a client with the token "tok" sends a request
whose Authorization header is "Bearer tok". -/
theorem SendRequest_authorization_witness :
    (SendRequest (refEnv (respond 200 "")) { sampleClient with Token := "tok" } "app" "GET" .nil
        true).sent =
      some { Method := "GET", URL := "http://localhost:5000/v1/app", Body := "",
             Header := [("NeutrinoOptions", "\x7b\"notify\":false,\"filter\":null\x7d"), ("Authorization", "Bearer tok")] } ∧
    ∀ req, (SendRequest (refEnv (respond 200 "")) { sampleClient with Token := "tok" } "app" "GET"
        .nil true).sent = some req →
      ((∃ v, req.Header.Get "Authorization" = some v) ↔ "tok" ≠ "") ∧
      (∀ v, req.Header.Get "Authorization" = some v → v = "Bearer " ++ "tok") :=
  ⟨rfl, (SendRequest_authorization (refEnv (respond 200 "")) { sampleClient with Token := "tok" }
    "app" "GET" .nil true "" _ rfl).2⟩

/-- C2 at the failing input: the answer 404 with a body ends `SendRequest`
with a nil result and a nil error, the very outcome of the answer 200 with an
empty body. -/
theorem SendRequest_non200_is_empty_success :
    SendRequest (refEnv (respond 404 "not found")) sampleClient "app" "GET" .nil true =
      SendRequest (refEnv (respond 200 "")) sampleClient "app" "GET" .nil true ∧
    (SendRequest (refEnv (respond 404 "not found")) sampleClient "app" "GET" .nil true).result
      = GoValue.nil ∧
    (SendRequest (refEnv (respond 404 "not found")) sampleClient "app" "GET" .nil true).err
      = none :=
  ⟨rfl, rfl, rfl⟩

/-- The general form of the C2 defect: every answer with a status other than
200 ends the call with a nil result and a nil error. -/
theorem SendRequest_non200 (env : Env) (c : ApiClient) (url method : String) (body : GoValue)
    (isArray : Bool) (req : Request) (res : Response)
    (hs : (SendRequest env c url method body isArray).sent = some req)
    (hd : env.Do req = (some res, none)) (hne : res.StatusCode ≠ StatusOK) :
    SendRequest env c url method body isArray = ⟨some req, .nil, none⟩ := by
  rw [SendRequest_of_sent _ _ _ _ _ _ _ hs, dispatch_non200 _ _ _ _ hd hne]

theorem decodeBody_array (env : Env) (req : Request) (b : String) (hne : b ≠ "") :
    decodeBody env req b true =
      match env.UnmarshalMapSlice b with
      | .error e => ⟨some req, .nil, some e⟩
      | .ok jsonArray => ⟨some req, .mapSlice jsonArray, none⟩ := by
  simp [decodeBody, hne]

theorem decodeBody_single (env : Env) (req : Request) (b : String) (hne : b ≠ "") :
    decodeBody env req b false =
      match env.UnmarshalMap b with
      | .error e => ⟨some req, .nil, some e⟩
      | .ok m => ⟨some req, .strMap m, none⟩ := by
  simp [decodeBody, hne]

/-- C3: for an answer 200 with a non-empty body, `SendRequest` returns what the
JSON decoder yields for the declared shape: with isArray = false the map the
body decodes to, with isArray = true the slice of maps the body decodes to,
each with a nil error; and when the decoder reports an error, a nil result
with that error. -/
theorem SendRequest_decodes (env : Env) (c : ApiClient) (url method : String) (body : GoValue)
    (isArray : Bool) (req : Request) (res : Response) (bodyRes : String)
    (hs : (SendRequest env c url method body isArray).sent = some req)
    (hd : env.Do req = (some res, none)) (h200 : res.StatusCode = 200)
    (hr : res.ReadAll = .ok bodyRes) (hne : bodyRes ≠ "") :
    (isArray = false →
      (∀ m, env.UnmarshalMap bodyRes = .ok m →
        SendRequest env c url method body isArray = ⟨some req, .strMap m, none⟩) ∧
      (∀ e, env.UnmarshalMap bodyRes = .error e →
        SendRequest env c url method body isArray = ⟨some req, .nil, some e⟩)) ∧
    (isArray = true →
      (∀ ms, env.UnmarshalMapSlice bodyRes = .ok ms →
        SendRequest env c url method body isArray = ⟨some req, .mapSlice ms, none⟩) ∧
      (∀ e, env.UnmarshalMapSlice bodyRes = .error e →
        SendRequest env c url method body isArray = ⟨some req, .nil, some e⟩)) := by
  rw [SendRequest_of_sent _ _ _ _ _ _ _ hs, dispatch_ok _ _ _ _ _ hd h200 hr]
  constructor
  · rintro rfl
    rw [decodeBody_single _ _ _ hne]
    constructor
    · intro m hm
      rw [hm]
    · intro e he
      rw [he]
  · rintro rfl
    rw [decodeBody_array _ _ _ hne]
    constructor
    · intro ms hm
      rw [hm]
    · intro e he
      rw [he]

/-- C3 at concrete inputs, with the reference decoder: the body
`[{"id":"a"},{"id":"b"}]` read as a collection gives two records, "a" then
"b"; the body `{"id":"abc"}` read as a single record gives that record; and
the array read as a single record gives a nil result with the decoding
error. -/
theorem SendRequest_decodes_witness :
    SendRequest (refEnv (respond 200 "[\x7b\"id\":\"a\"\x7d,\x7b\"id\":\"b\"\x7d]")) sampleClient
        "app" "GET" .nil true =
      ⟨some { Method := "GET", URL := "http://localhost:5000/v1/app", Body := "",
              Header := [("NeutrinoOptions", "\x7b\"notify\":false,\"filter\":null\x7d")] },
       .mapSlice (some [some [("id", .string "a")], some [("id", .string "b")]]), none⟩ ∧
    SendRequest (refEnv (respond 200 "\x7b\"id\":\"abc\"\x7d")) sampleClient
        "app/app1/data/t/1" "GET" .nil false =
      ⟨some { Method := "GET", URL := "http://localhost:5000/v1/app/app1/data/t/1", Body := "",
              Header := [("NeutrinoOptions", "\x7b\"notify\":false,\"filter\":null\x7d")] },
       .strMap (some [("id", .string "abc")]), none⟩ ∧
    SendRequest (refEnv (respond 200 "[\x7b\"id\":\"a\"\x7d,\x7b\"id\":\"b\"\x7d]")) sampleClient
        "app" "GET" .nil false =
      ⟨some { Method := "GET", URL := "http://localhost:5000/v1/app", Body := "",
              Header := [("NeutrinoOptions", "\x7b\"notify\":false,\"filter\":null\x7d")] },
       .nil, some "json: cannot unmarshal array into Go value of type map[string]interface {}"⟩ :=
  ⟨(SendRequest_decodes (refEnv (respond 200 "[\x7b\"id\":\"a\"\x7d,\x7b\"id\":\"b\"\x7d]"))
      sampleClient "app" "GET" .nil true _ _ _ rfl rfl rfl rfl (by decide)).2 rfl |>.1 _ rfl,
   (SendRequest_decodes (refEnv (respond 200 "\x7b\"id\":\"abc\"\x7d"))
      sampleClient "app/app1/data/t/1" "GET" .nil false _ _ _ rfl rfl rfl rfl (by decide)).1 rfl
      |>.1 _ rfl,
   (SendRequest_decodes (refEnv (respond 200 "[\x7b\"id\":\"a\"\x7d,\x7b\"id\":\"b\"\x7d]"))
      sampleClient "app" "GET" .nil false _ _ _ rfl rfl rfl rfl (by decide)).1 rfl |>.2 _ rfl⟩

theorem SendRequest_sent_decoders (env : Env) (um : String → Except GoError Record)
    (ums : String → Except GoError Records) (c : ApiClient) (url method : String)
    (body : GoValue) (isArray : Bool) :
    (SendRequest { env with UnmarshalMap := um, UnmarshalMapSlice := ums } c url method body
      isArray).sent = (SendRequest env c url method body isArray).sent := by
  unfold SendRequest
  rw [show marshalBody { env with UnmarshalMap := um, UnmarshalMapSlice := ums } body =
    marshalBody env body from rfl]
  cases marshalBody env body with
  | error e => rfl
  | ok bodyStr =>
    simp only
    rw [show NewRequest { env with UnmarshalMap := um, UnmarshalMapSlice := ums } method
      (c.BaseUrl ++ url) bodyStr = NewRequest env method (c.BaseUrl ++ url) bodyStr from rfl]
    cases NewRequest env method (c.BaseUrl ++ url) bodyStr with
    | error e => rfl
    | ok req0 =>
      simp only
      cases env.OptionsString (requestOptions c) with
      | error e => rfl
      | ok optsS => simp only [dispatch_sent]

/-- C4: for an answer 200 whose body has zero length, `SendRequest` returns a
nil result and a nil error whatever the shape hint, and whatever the JSON
decoders are: the body is not decoded. -/
theorem SendRequest_empty_body (env : Env) (um : String → Except GoError Record)
    (ums : String → Except GoError Records) (c : ApiClient) (url method : String)
    (body : GoValue) (isArray : Bool) (req : Request) (res : Response)
    (hs : (SendRequest env c url method body isArray).sent = some req)
    (hd : env.Do req = (some res, none)) (h200 : res.StatusCode = 200)
    (hr : res.ReadAll = .ok "") :
    SendRequest { env with UnmarshalMap := um, UnmarshalMapSlice := ums } c url method body
      isArray = ⟨some req, .nil, none⟩ := by
  have hs1 := (SendRequest_sent_decoders env um ums c url method body isArray).trans hs
  rw [SendRequest_of_sent _ _ _ _ _ _ _ hs1,
    dispatch_ok { env with UnmarshalMap := um, UnmarshalMapSlice := ums } req isArray res ""
      hd h200 hr]
  simp [decodeBody]

/-- C4 at concrete inputs: an empty answer 200 gives (nil, nil) for both shape
hints, also with decoders that fail on every text. -/
theorem SendRequest_empty_body_witness :
    SendRequest (refEnv (respond 200 "")) sampleClient "app" "GET" .nil true =
      ⟨some { Method := "GET", URL := "http://localhost:5000/v1/app", Body := "",
              Header := [("NeutrinoOptions", "\x7b\"notify\":false,\"filter\":null\x7d")] }, .nil, none⟩ ∧
    SendRequest { refEnv (respond 200 "") with
        UnmarshalMap := fun _ => .error "decoder called",
        UnmarshalMapSlice := fun _ => .error "decoder called" }
      sampleClient "app" "GET" .nil false =
      ⟨some { Method := "GET", URL := "http://localhost:5000/v1/app", Body := "",
              Header := [("NeutrinoOptions", "\x7b\"notify\":false,\"filter\":null\x7d")] }, .nil, none⟩ :=
  ⟨SendRequest_empty_body (refEnv (respond 200 "")) refUnmarshalMap refUnmarshalMapSlice
      sampleClient "app" "GET" .nil true _ _ rfl rfl rfl rfl,
   SendRequest_empty_body (refEnv (respond 200 "")) (fun _ => .error "decoder called")
      (fun _ => .error "decoder called") sampleClient "app" "GET" .nil false _ _ rfl rfl rfl rfl⟩

theorem SendRequest_record (env : Env) (c : ApiClient) (url method : String) (body : GoValue)
    (req : Request) (res : Response) (bodyRes : String) (m : Record)
    (hs : (SendRequest env c url method body false).sent = some req)
    (hd : env.Do req = (some res, none)) (h200 : res.StatusCode = 200)
    (hr : res.ReadAll = .ok bodyRes) (hne : bodyRes ≠ "")
    (hm : env.UnmarshalMap bodyRes = .ok m) :
    SendRequest env c url method body false = ⟨some req, .strMap m, none⟩ := by
  rw [SendRequest_of_sent _ _ _ _ _ _ _ hs, dispatch_ok _ _ _ _ _ hd h200 hr,
    decodeBody_single _ _ _ hne, hm]

theorem loginCall_sent (app : Bool) (env : Env) (c : ApiClient) (email password : String) :
    (loginCall app env c email password).sent =
      (SendRequest env c (loginUrl app c) "POST" (credentials email password) false).sent := by
  cases app
  · simp only [loginCall, loginUrl, Login, Bool.false_eq_true, if_false]
    repeat (first | rfl | split)
  · simp only [loginCall, loginUrl, AppLogin, if_true]
    repeat (first | rfl | split)

theorem loginCall_of_record (app : Bool) (env : Env) (c : ApiClient) (email password : String)
    (req : Request) (m : Record)
    (h : SendRequest env c (loginUrl app c) "POST" (credentials email password) false =
      ⟨some req, .strMap m, none⟩) :
    loginCall app env c email password =
      match (m.index "token").assertString with
      | none => ⟨some req, c, .panicked⟩
      | some t => ⟨some req, { c with Token := t }, .returned t none⟩ := by
  cases app
  · simp only [loginUrl, Bool.false_eq_true, if_false] at h
    simp only [loginCall, Login, Bool.false_eq_true, if_false, h, GoValue.isNil,
      GoValue.assertStrMap]
  · simp only [loginUrl, if_true] at h
    simp only [loginCall, AppLogin, if_true, h, GoValue.isNil, GoValue.assertStrMap,
      Bool.false_eq_true, if_false]

/-- C5: when Login (app = false) or AppLogin (app = true) receives an answer
200 whose body decodes to a record with "token" mapped to the string t, the
call returns t with a nil error, the Token of the client becomes t (nothing
else of the client changes), and every request the client then hands to
`client.Do` in a later `SendRequest` carries Authorization "Bearer " + t when
t is not empty, and no Authorization header when t is empty. -/
theorem login_sets_token (app : Bool) (env : Env) (c : ApiClient) (email password : String)
    (req : Request) (res : Response) (bodyRes : String) (m : Record) (t : String)
    (hs : (loginCall app env c email password).sent = some req)
    (hd : env.Do req = (some res, none)) (h200 : res.StatusCode = 200)
    (hr : res.ReadAll = .ok bodyRes) (hne : bodyRes ≠ "")
    (hm : env.UnmarshalMap bodyRes = .ok m) (ht : m.index "token" = .string t) :
    (loginCall app env c email password).out = .returned t none ∧
    (loginCall app env c email password).client = { c with Token := t } ∧
    (loginCall app env c email password).client.Token = t ∧
    ∀ (env2 : Env) (url method : String) (body : GoValue) (isArray : Bool) (req2 : Request),
      (SendRequest env2 (loginCall app env c email password).client url method body
        isArray).sent = some req2 →
      req2.Header.Get "Authorization" = if t = "" then none else some ("Bearer " ++ t) := by
  rw [loginCall_sent] at hs
  have hcall := loginCall_of_record app env c email password req m
    (SendRequest_record _ _ _ _ _ _ _ _ _ hs hd h200 hr hne hm)
  rw [ht] at hcall
  simp only [GoValue.assertString] at hcall
  rw [hcall]
  refine ⟨rfl, rfl, rfl, ?_⟩
  intro env2 url method body isArray req2 hs2
  obtain ⟨_, req1, optsS, _, hr1, _, rfl⟩ := SendRequest_sent_inv _ _ _ _ _ _ _ hs2
  have h1 : req1.Header = [] := (NewRequest_inv _ _ _ _ _ hr1).1
  rw [builtRequest_authorization _ req1 optsS h1]

/-- C5 at a concrete input: `Login` answered with `{"token":"xyz"}` returns
"xyz", stores it, and the next request of the client carries "Bearer xyz";
the same for `AppLogin`. -/
theorem login_sets_token_witness :
    (Login (refEnv (respond 200 "\x7b\"token\":\"xyz\"\x7d")) sampleClient "e" "p").out =
      .returned "xyz" none ∧
    (Login (refEnv (respond 200 "\x7b\"token\":\"xyz\"\x7d")) sampleClient "e" "p").client.Token =
      "xyz" ∧
    (SendRequest (refEnv (respond 200 ""))
      (Login (refEnv (respond 200 "\x7b\"token\":\"xyz\"\x7d")) sampleClient "e" "p").client
      "app" "GET" .nil true).sent =
      some { Method := "GET", URL := "http://localhost:5000/v1/app", Body := "",
             Header := [("NeutrinoOptions", "\x7b\"notify\":false,\"filter\":null\x7d"), ("Authorization", "Bearer xyz")] } ∧
    (AppLogin (refEnv (respond 200 "\x7b\"token\":\"xyz\"\x7d")) sampleClient "e" "p").out =
      .returned "xyz" none ∧
    (AppLogin (refEnv (respond 200 "\x7b\"token\":\"xyz\"\x7d")) sampleClient "e" "p").client.Token
      = "xyz" :=
  have h0 := login_sets_token false (refEnv (respond 200 "\x7b\"token\":\"xyz\"\x7d")) sampleClient
    "e" "p" _ _ _ _ "xyz" rfl rfl rfl rfl (by decide) rfl rfl
  have h1 := login_sets_token true (refEnv (respond 200 "\x7b\"token\":\"xyz\"\x7d")) sampleClient
    "e" "p" _ _ _ _ "xyz" rfl rfl rfl rfl (by decide) rfl rfl
  ⟨h0.1, h0.2.2.1, rfl, h1.1, h1.2.2.1⟩

/-- The general form of the C6 defect for the login methods: when the decoded
record has no string under "token", the call panics. -/
theorem loginCall_panics (app : Bool) (env : Env) (c : ApiClient) (email password : String)
    (req : Request) (res : Response) (bodyRes : String) (m : Record)
    (hs : (loginCall app env c email password).sent = some req)
    (hd : env.Do req = (some res, none)) (h200 : res.StatusCode = 200)
    (hr : res.ReadAll = .ok bodyRes) (hne : bodyRes ≠ "")
    (hm : env.UnmarshalMap bodyRes = .ok m) (ht : (m.index "token").assertString = none) :
    (loginCall app env c email password).out = .panicked := by
  rw [loginCall_sent] at hs
  rw [loginCall_of_record app env c email password req m
    (SendRequest_record _ _ _ _ _ _ _ _ _ hs hd h200 hr hne hm), ht]

/-- The general form of the C6 defect for `CreateApp`: when the decoded record
has no string under "id", the call panics. -/
theorem CreateApp_panics (env : Env) (c : ApiClient) (name : String)
    (req : Request) (res : Response) (bodyRes : String) (m : Record)
    (hs : (SendRequest env c "app" "POST" (.strMap (some [("name", .string name)])) false).sent
      = some req)
    (hd : env.Do req = (some res, none)) (h200 : res.StatusCode = 200)
    (hr : res.ReadAll = .ok bodyRes) (hne : bodyRes ≠ "")
    (hm : env.UnmarshalMap bodyRes = .ok m) (ht : (m.index "id").assertString = none) :
    (CreateApp env c name).out = .panicked := by
  simp only [CreateApp, SendRequest_record _ _ _ _ _ _ _ _ _ hs hd h200 hr hne hm, GoValue.isNil,
    GoValue.assertStrMap, ht, Bool.false_eq_true, if_false]

/-- C6 at the failing inputs: an answer 200 whose record lacks the expected
field, or holds a value under it that is not a string, makes `Login`,
`AppLogin` and `CreateApp` panic on the type assertion; none of them returns
an error. -/
theorem domain_methods_panic_on_field :
    (Login (refEnv (respond 200 "\x7b\x7d")) sampleClient "e" "p").out = .panicked ∧
    (Login (refEnv (respond 200 "\x7b\"token\":true\x7d")) sampleClient "e" "p").out
      = .panicked ∧
    (AppLogin (refEnv (respond 200 "\x7b\x7d")) sampleClient "e" "p").out = .panicked ∧
    (AppLogin (refEnv (respond 200 "\x7b\"token\":[\"xyz\"]\x7d")) sampleClient "e" "p").out
      = .panicked ∧
    (CreateApp (refEnv (respond 200 "\x7b\"name\":\"shop\"\x7d")) sampleClient "shop").out
      = .panicked ∧
    (CreateApp (refEnv (respond 200 "\x7b\"id\":null\x7d")) sampleClient "shop").out
      = .panicked :=
  ⟨rfl, rfl, rfl, rfl, rfl, rfl⟩

theorem decodeBody_single_result (env : Env) (req : Request) (b : String) :
    (decodeBody env req b false).result = .nil ∨
      ∃ m, (decodeBody env req b false).result = .strMap m := by
  unfold decodeBody
  simp only [Bool.false_eq_true, if_false]
  split
  · exact Or.inl rfl
  · split
    · exact Or.inl rfl
    · exact Or.inr ⟨_, rfl⟩

theorem SendRequest_single_result (env : Env) (c : ApiClient) (url method : String)
    (body : GoValue) :
    (SendRequest env c url method body false).result = .nil ∨
      ∃ m, (SendRequest env c url method body false).result = .strMap m := by
  unfold SendRequest dispatch
  simp only
  repeat (first | exact Or.inl rfl | exact decodeBody_single_result _ _ _ | split)

/-- C10: `GetCollections` never returns a non-nil list.  The result of its
`SendRequest` is nil, and the call returns a nil list with the error of
`SendRequest`, or it is a record, and the assertion to a list of strings
panics.  In particular an answer 200 whose body the decoder rejects as a
record (a JSON array of strings) gives a nil list with the decoding error. -/
theorem GetCollections_never_list (env : Env) (c : ApiClient) :
    ((GetCollections env c).out = .panicked ∨
      ∃ e, (GetCollections env c).out = .returned none e) ∧
    ((SendRequest env c ("app/" ++ c.AppId ++ "/data") "GET" .nil false).result = .nil ∨
      ∃ m, (SendRequest env c ("app/" ++ c.AppId ++ "/data") "GET" .nil false).result
        = .strMap m) ∧
    ((SendRequest env c ("app/" ++ c.AppId ++ "/data") "GET" .nil false).result = .nil →
      (GetCollections env c).out =
        .returned none (SendRequest env c ("app/" ++ c.AppId ++ "/data") "GET" .nil false).err) ∧
    (∀ m, (SendRequest env c ("app/" ++ c.AppId ++ "/data") "GET" .nil false).result = .strMap m →
      (GetCollections env c).out = .panicked) ∧
    (∀ (req : Request) (res : Response) (bodyRes : String) (e : GoError),
      (GetCollections env c).sent = some req → env.Do req = (some res, none) →
      res.StatusCode = 200 → res.ReadAll = .ok bodyRes → bodyRes ≠ "" →
      env.UnmarshalMap bodyRes = .error e →
      (GetCollections env c).out = .returned none (some e)) := by
  have hnil : (SendRequest env c ("app/" ++ c.AppId ++ "/data") "GET" .nil false).result = .nil →
      (GetCollections env c).out =
        .returned none (SendRequest env c ("app/" ++ c.AppId ++ "/data") "GET" .nil false).err := by
    intro h
    simp only [GetCollections, h, GoValue.isNil, if_true]
  have hmap : ∀ m,
      (SendRequest env c ("app/" ++ c.AppId ++ "/data") "GET" .nil false).result = .strMap m →
      (GetCollections env c).out = .panicked := by
    intro m h
    simp only [GetCollections, h, GoValue.isNil, GoValue.assertStringSlice, Bool.false_eq_true,
      if_false]
  refine ⟨?_, SendRequest_single_result env c _ "GET" .nil, hnil, hmap, ?_⟩
  · rcases SendRequest_single_result env c ("app/" ++ c.AppId ++ "/data") "GET" .nil with h | ⟨m, h⟩
    · exact Or.inr ⟨_, hnil h⟩
    · exact Or.inl (hmap m h)
  · intro req res bodyRes e hs hd h200 hr hne he
    have hs1 : (SendRequest env c ("app/" ++ c.AppId ++ "/data") "GET" .nil false).sent
        = some req := by
      rw [← hs]
      simp only [GetCollections]
      repeat (first | rfl | split)
    have hout : SendRequest env c ("app/" ++ c.AppId ++ "/data") "GET" .nil false =
        ⟨some req, .nil, some e⟩ := by
      rw [SendRequest_of_sent _ _ _ _ _ _ _ hs1, dispatch_ok _ _ _ _ _ hd h200 hr,
        decodeBody_single _ _ _ hne, he]
    rw [hnil (by rw [hout]), hout]

/-- C10 at concrete inputs: the array `["users","posts"]` gives a nil list
with the decoding error, and the object `{}` makes the call panic. -/
theorem GetCollections_never_list_witness :
    (GetCollections (refEnv (respond 200 "[\"users\",\"posts\"]")) sampleClient).out =
      .returned none (some "json: cannot unmarshal array into Go value of type map[string]interface {}") ∧
    (GetCollections (refEnv (respond 200 "\x7b\x7d")) sampleClient).out = .panicked :=
  ⟨(GetCollections_never_list (refEnv (respond 200 "[\"users\",\"posts\"]")) sampleClient).2.2.2.2
      _ _ _ _ rfl rfl rfl rfl (by decide) rfl,
   (GetCollections_never_list (refEnv (respond 200 "\x7b\x7d")) sampleClient).2.2.2.1 _ rfl⟩

theorem builtRequest_target (c : ApiClient) (req0 : Request) (optsS : String) :
    (builtRequest c req0 optsS).Method = req0.Method ∧
      (builtRequest c req0 optsS).URL = req0.URL ∧
      (builtRequest c req0 optsS).Body = req0.Body := by
  unfold builtRequest setAuthorization
  split <;> exact ⟨rfl, rfl, rfl⟩

theorem SendRequest_sent_target (env : Env) (c : ApiClient) (url method : String)
    (body : GoValue) (isArray : Bool) (req : Request)
    (h : (SendRequest env c url method body isArray).sent = some req) :
    req.Method = (if method = "" then "GET" else method) ∧
      env.ParseURL (c.BaseUrl ++ url) = .ok req.URL := by
  obtain ⟨bodyStr, req0, optsS, _, hr, _, rfl⟩ := SendRequest_sent_inv _ _ _ _ _ _ _ h
  obtain ⟨_, hm, hu, _, _⟩ := NewRequest_inv _ _ _ _ _ hr
  rw [(builtRequest_target c req0 optsS).1, (builtRequest_target c req0 optsS).2.1]
  exact ⟨hm, hu⟩

theorem SendRequest_sent_of_built (env : Env) (c : ApiClient) (url method : String)
    (body : GoValue) (isArray : Bool) (bodyStr u optsS : String)
    (hb : marshalBody env body = .ok bodyStr)
    (hv : env.ValidMethod (if method = "" then "GET" else method) = true)
    (hu : env.ParseURL (c.BaseUrl ++ url) = .ok u)
    (ho : env.OptionsString (requestOptions c) = .ok optsS) :
    ∃ req, (SendRequest env c url method body isArray).sent = some req ∧
      req.Method = (if method = "" then "GET" else method) ∧ req.URL = u ∧
      req.Body = bodyStr := by
  have hr := NewRequest_ok env method (c.BaseUrl ++ url) bodyStr u hv hu
  refine ⟨builtRequest c ⟨if method = "" then "GET" else method, u, bodyStr, []⟩ optsS, ?_, ?_⟩
  · rw [SendRequest_of_built _ _ _ _ _ _ _ _ _ hb hr ho, dispatch_sent]
  · rw [(builtRequest_target c _ optsS).1, (builtRequest_target c _ optsS).2.1,
      (builtRequest_target c _ optsS).2.2]
    exact ⟨rfl, rfl, rfl⟩

theorem returnRecord_sent (c : ApiClient) (o : Outcome) : (returnRecord c o).sent = o.sent := by
  unfold returnRecord
  repeat (first | rfl | split)

theorem DomainCall.issued_eq (env : Env) (c : ApiClient) (call : DomainCall) :
    call.issued env c =
      (SendRequest env c (call.relativePath c.AppId) call.tableMethod call.body
        call.isArray).sent := by
  cases call
  case createApp name =>
    simp only [DomainCall.issued, CreateApp, DomainCall.relativePath, DomainCall.tableMethod,
      DomainCall.body, DomainCall.isArray]
    repeat (first | rfl | split)
  case getApps =>
    simp only [DomainCall.issued, GetApps, DomainCall.relativePath, DomainCall.tableMethod,
      DomainCall.body, DomainCall.isArray]
    repeat (first | rfl | split)
  case register e p => rfl
  case login e p => exact loginCall_sent false env c e p
  case appRegister e p => rfl
  case appLogin e p => exact loginCall_sent true env c e p
  case createItem t m => exact returnRecord_sent _ _
  case getItems t =>
    simp only [DomainCall.issued, GetItems, DomainCall.relativePath, DomainCall.tableMethod,
      DomainCall.body, DomainCall.isArray]
    repeat (first | rfl | split)
  case updateItem t id m => exact returnRecord_sent _ _
  case deleteItem t id => exact returnRecord_sent _ _
  case getItem t id => exact returnRecord_sent _ _
  case getCollections =>
    simp only [DomainCall.issued, GetCollections, DomainCall.relativePath,
      DomainCall.tableMethod, DomainCall.body, DomainCall.isArray]
    repeat (first | rfl | split)

theorem DomainCall.tableMethod_ne_empty (call : DomainCall) : call.tableMethod ≠ "" := by
  cases call <;> simp only [DomainCall.tableMethod] <;> decide

theorem DomainCall.tablePath_eq (app : String) (call : DomainCall) :
    call.tablePath app = "/" ++ call.relativePath app := by
  cases call <;> simp only [DomainCall.tablePath, DomainCall.relativePath, ← String.append_assoc]
    <;> rfl

/-- C8 as the claim states it fails: `CreateApp` on a client whose BaseUrl is
"http://localhost:5000/v1/" requests "http://localhost:5000/v1/app", which is
not the BaseUrl followed by "/app", nor what that text parses to; and
`GetItem` with the arguments "my books" and "a b" requests a URL with the
spaces escaped, which is not the BaseUrl followed by the path either. -/
theorem domain_url_counterexample :
    (DomainCall.createApp "shop").issued (refEnv (respond 200 "")) sampleClient =
      some { Method := "POST", URL := "http://localhost:5000/v1/app",
             Body := "\x7b\"name\":\"shop\"\x7d",
             Header := [("NeutrinoOptions", "\x7b\"notify\":false,\"filter\":null\x7d")] } ∧
    "http://localhost:5000/v1/app" ≠
      sampleClient.BaseUrl ++ (DomainCall.createApp "shop").tablePath sampleClient.AppId ∧
    (refEnv (respond 200 "")).ParseURL
        (sampleClient.BaseUrl ++ (DomainCall.createApp "shop").tablePath sampleClient.AppId) =
      .ok "http://localhost:5000/v1//app" ∧
    ((DomainCall.getItem "my books" "a b").issued (refEnv (respond 200 "")) sampleClient).map
        (fun r => r.URL) =
      some "http://localhost:5000/v1/app/app1/data/my%20books/a%20b" ∧
    "http://localhost:5000/v1/app/app1/data/my%20books/a%20b" ≠
      sampleClient.BaseUrl ++ (DomainCall.getItem "my books" "a b").tablePath sampleClient.AppId :=
  ⟨rfl, by decide, rfl, rfl, by decide⟩

/-- C8 amended: the path templates of the interface table are the relative
urls of the code with a slash in front; every request a domain method hands
to `client.Do` has the HTTP method of the table and the URL that
`http.NewRequest` parses from the BaseUrl of the client immediately followed
by the path template without its leading slash; and the method does hand
over that request whenever the body can be marshalled, `http.NewRequest`
accepts the method and the URL, and the options can be encoded. -/
theorem domain_method_and_url (env : Env) (c : ApiClient) (call : DomainCall) :
    call.tablePath c.AppId = "/" ++ call.relativePath c.AppId ∧
    (∀ req, call.issued env c = some req →
      req.Method = call.tableMethod ∧
      env.ParseURL (c.BaseUrl ++ call.relativePath c.AppId) = .ok req.URL) ∧
    (∀ bodyStr u optsS, marshalBody env call.body = .ok bodyStr →
      env.ValidMethod call.tableMethod = true →
      env.ParseURL (c.BaseUrl ++ call.relativePath c.AppId) = .ok u →
      env.OptionsString (requestOptions c) = .ok optsS →
      ∃ req, call.issued env c = some req ∧ req.Method = call.tableMethod ∧ req.URL = u ∧
        req.Body = bodyStr) := by
  refine ⟨DomainCall.tablePath_eq _ _, ?_, ?_⟩
  · intro req h
    rw [DomainCall.issued_eq] at h
    obtain ⟨hm, hu⟩ := SendRequest_sent_target _ _ _ _ _ _ _ h
    rw [if_neg (DomainCall.tableMethod_ne_empty call)] at hm
    exact ⟨hm, hu⟩
  · intro bodyStr u optsS hb hv hu ho
    have hne := DomainCall.tableMethod_ne_empty call
    obtain ⟨req, hs, hm, hurl, hbody⟩ := SendRequest_sent_of_built env c
      (call.relativePath c.AppId) call.tableMethod call.body call.isArray bodyStr u optsS hb
      (by rw [if_neg hne]; exact hv) hu ho
    rw [if_neg hne] at hm
    exact ⟨req, by rw [DomainCall.issued_eq]; exact hs, hm, hurl, hbody⟩

/-- C8 amended, at concrete inputs: `UpdateItem` on the sample client hands
over a PUT request on the BaseUrl followed by "app/app1/data/books/7",
`GetItems` a GET request on the BaseUrl followed by "app/app1/data/books",
and `GetItem` with the arguments "my books" and "a b" a GET request on the
URL parsed from the BaseUrl followed by "app/app1/data/my books/a b", which
carries the spaces escaped. -/
theorem domain_method_and_url_witness :
    (∃ req, (DomainCall.updateItem "books" "7" (some [("title", .string "x")])).issued
        (refEnv (respond 200 "")) sampleClient = some req ∧
      req.Method = "PUT" ∧ req.URL = "http://localhost:5000/v1/app/app1/data/books/7" ∧
      req.Body = "\x7b\"title\":\"x\"\x7d") ∧
    (∃ req, (DomainCall.getItems "books").issued (refEnv (respond 200 "")) sampleClient
        = some req ∧
      req.Method = "GET" ∧ req.URL = "http://localhost:5000/v1/app/app1/data/books" ∧
      req.Body = "") ∧
    (∃ req, (DomainCall.getItem "my books" "a b").issued (refEnv (respond 200 "")) sampleClient
        = some req ∧
      req.Method = "GET" ∧
      req.URL = "http://localhost:5000/v1/app/app1/data/my%20books/a%20b" ∧
      req.Body = "") ∧
    (GetItems (refEnv (respond 200 "")) sampleClient "books").sent =
      some { Method := "GET", URL := "http://localhost:5000/v1/app/app1/data/books", Body := "",
             Header := [("NeutrinoOptions", "\x7b\"notify\":false,\"filter\":null\x7d")] } :=
  ⟨(domain_method_and_url (refEnv (respond 200 "")) sampleClient
      (.updateItem "books" "7" (some [("title", .string "x")]))).2.2 _ _ _ rfl rfl rfl rfl,
   (domain_method_and_url (refEnv (respond 200 "")) sampleClient
      (.getItems "books")).2.2 _ _ _ rfl rfl rfl rfl,
   (domain_method_and_url (refEnv (respond 200 "")) sampleClient
      (.getItem "my books" "a b")).2.2 _ _ _ rfl rfl rfl rfl,
   rfl⟩

/-! ## The JSON reader gives back what the writer wrote -/

theorem hexVal_hexDigit (k : Nat) (h : k < 16) : hexVal (hexDigit k) = some k := by
  interval_cases k <;> rfl

theorem hexChar_digits (c : Char) (h : c.toNat < 65536) :
    hexChar (hexDigit (c.toNat / 4096 % 16)) (hexDigit (c.toNat / 256 % 16))
      (hexDigit (c.toNat / 16 % 16)) (hexDigit (c.toNat % 16)) = some c := by
  have hv := c.valid
  simp only [hexChar, hexVal_hexDigit _ (Nat.mod_lt _ (by decide : 16 > 0))]
  have hcode : ((c.toNat / 4096 % 16 * 16 + c.toNat / 256 % 16) * 16 + c.toNat / 16 % 16) * 16
      + c.toNat % 16 = c.toNat := by omega
  rw [hcode]
  have hs : ¬ (55296 ≤ c.toNat ∧ c.toNat ≤ 57343) := by
    rcases hv with h1 | h1
    · have : c.toNat < 55296 := h1
      omega
    · have : 57343 < c.toNat := h1.1
      omega
  rw [if_neg hs]
  simp
theorem readString_escapeChar (c : Char) (tail : List Char) :
    readString (escapeChar c ++ tail) =
      match readString tail with
      | some (s, r) => some (c :: s, r)
      | none => none := by
  unfold escapeChar
  split
  · rename_i h
    subst h
    rw [List.cons_append, List.cons_append, List.nil_append, readString.eq_def]
    simp only [unescape]
    rcases readString tail with _ | ⟨s, r⟩ <;> simp
  · split
    · rename_i h
      subst h
      rw [List.cons_append, List.cons_append, List.nil_append, readString.eq_def]
      simp only [unescape]
      rcases readString tail with _ | ⟨s, r⟩ <;> simp
    · split
      · rename_i h
        subst h
        rw [List.cons_append, List.cons_append, List.nil_append, readString.eq_def]
        simp only [unescape]
        rcases readString tail with _ | ⟨s, r⟩ <;> simp
      · split
        · rename_i h
          subst h
          rw [List.cons_append, List.cons_append, List.nil_append, readString.eq_def]
          simp only [unescape]
          rcases readString tail with _ | ⟨s, r⟩ <;> simp
        · split
          · rename_i h
            subst h
            rw [List.cons_append, List.cons_append, List.nil_append, readString.eq_def]
            simp only [unescape]
            rcases readString tail with _ | ⟨s, r⟩ <;> simp
          · rename_i h1 h2 h3 h4 h5
            split
            · rename_i h6
              have hlt : c.toNat < 65536 := by
                rcases h6 with h | h | h | h | h | h
                · omega
                · subst h; decide
                · subst h; decide
                · subst h; decide
                · omega
                · omega
              simp only [List.cons_append, List.nil_append]
              rw [readString.eq_def]
              simp only [hexChar_digits c hlt]
              rcases readString tail with _ | ⟨s, r⟩ <;> simp
            · rename_i h6
              have hge : ¬ c.toNat < 32 := fun h => h6 (Or.inl h)
              rw [List.cons_append, List.nil_append, readString.eq_def]
              simp only [h1, h2, hge, if_false]

theorem readString_escape (s : List Char) (rest : List Char) :
    readString (s.flatMap escapeChar ++ '"' :: rest) = some (s, rest) := by
  induction s with
  | nil =>
    rw [List.flatMap_nil, List.nil_append, readString.eq_def]
    simp
  | cons c cs ih =>
    rw [List.flatMap_cons, List.append_assoc, readString_escapeChar, ih]

theorem readString_quote (k : String) (rest : List Char) :
    ∃ t, quote k ++ rest = '"' :: t ∧ readString t = some (k.data, rest) := by
  refine ⟨k.data.flatMap escapeChar ++ '"' :: rest, ?_, readString_escape _ _⟩
  simp [quote]
theorem skipSpace_cons (c : Char) (t : List Char) (h : isSpace c = false) :
    skipSpace (c :: t) = c :: t := by
  simp [skipSpace, h]

theorem valueHead_facts (c : Char) (h : valueHead c) :
    isSpace c = false ∧ c ≠ ']' ∧ c ≠ '}' := by
  rcases h with h | h | h | h | h | h <;> subst h <;> decide

theorem render_head (v : GoValue) (cs : List Char) (h : render v = some cs) :
    ∃ c t, cs = c :: t ∧ valueHead c := by
  cases v with
  | nil => simp [render] at h; subst h; exact ⟨_, _, rfl, by simp [valueHead]⟩
  | bool b =>
    simp [render] at h
    subst h
    cases b
    · exact ⟨_, _, rfl, by simp [valueHead]⟩
    · exact ⟨_, _, rfl, by simp [valueHead]⟩
  | float64 bits => simp [render] at h
  | string s => simp [render, quote] at h; subst h; exact ⟨_, _, rfl, by simp [valueHead]⟩
  | ifaceSlice xs =>
    cases xs with
    | none => simp [render] at h; subst h; exact ⟨_, _, rfl, by simp [valueHead]⟩
    | some l =>
      simp [render] at h
      obtain ⟨ys, _, rfl⟩ := h
      exact ⟨_, _, rfl, by simp [valueHead]⟩
  | stringSlice xs =>
    cases xs with
    | none => simp [render] at h; subst h; exact ⟨_, _, rfl, by simp [valueHead]⟩
    | some l => simp [render] at h; subst h; exact ⟨_, _, rfl, by simp [valueHead]⟩
  | strMap m =>
    cases m with
    | none => simp [render] at h; subst h; exact ⟨_, _, rfl, by simp [valueHead]⟩
    | some l =>
      simp [render] at h
      obtain ⟨ys, _, rfl⟩ := h
      exact ⟨_, _, rfl, by simp [valueHead]⟩
  | mapSlice ms =>
    cases ms with
    | none => simp [render] at h; subst h; exact ⟨_, _, rfl, by simp [valueHead]⟩
    | some l =>
      simp [render] at h
      obtain ⟨ys, _, rfl⟩ := h
      exact ⟨_, _, rfl, by simp [valueHead]⟩

theorem putMember_fresh (acc : List (String × GoValue)) (k : String) (v : GoValue)
    (h : k ∉ acc.map Prod.fst) : putMember acc k v = acc ++ [(k, v)] := by
  unfold putMember
  congr 1
  rw [List.filter_eq_self]
  intro p hp
  have : p.1 ≠ k := by
    rintro rfl
    exact h (List.mem_map.2 ⟨p, hp, rfl⟩)
  simpa using this
theorem joinComma_cons_cons (x y : List Char) (ys : List (List Char)) :
    joinComma (x :: y :: ys) = x ++ ',' :: joinComma (y :: ys) := rfl

theorem renderElements_cons (v : GoValue) (vs : List GoValue) (ys : List (List Char))
    (h : renderElements (v :: vs) = some ys) :
    ∃ y ys1, render v = some y ∧ renderElements vs = some ys1 ∧ ys = y :: ys1 := by
  rw [renderElements] at h
  split at h
  · rename_i y ys1 h1 h2
    exact ⟨y, ys1, h1, h2, (Option.some.inj h).symm⟩
  · simp at h

theorem renderMembers_cons (k : String) (v : GoValue) (kvs : List (String × GoValue))
    (ys : List (List Char)) (h : renderMembers ((k, v) :: kvs) = some ys) :
    ∃ y ys1, render v = some y ∧ renderMembers kvs = some ys1 ∧
      ys = (quote k ++ ':' :: y) :: ys1 := by
  rw [renderMembers] at h
  split at h
  · rename_i y ys1 h1 h2
    exact ⟨y, ys1, h1, h2, (Option.some.inj h).symm⟩
  · simp at h

theorem joinComma_head (c : Char) (t : List Char) (ys1 : List (List Char)) (tail : List Char) :
    ∃ r1, joinComma ((c :: t) :: ys1) ++ tail = c :: r1 := by
  cases ys1 <;> exact ⟨_, rfl⟩

theorem readValue_array (n : Nat) (d : Char) (r1 : List Char) (hsp : isSpace d = false)
    (hd : d ≠ ']') :
    readValue (n + 1) ('[' :: d :: r1) =
      match readElements n (d :: r1) with
      | some (xs, r2) => some (.ifaceSlice (some xs), r2)
      | none => none := by
  rw [readValue, skipSpace_cons '[' _ (by decide)]
  simp only [show ¬ ('[' = '"') by decide, show ¬ ('[' = '{') by decide, if_false, if_true,
    skipSpace_cons d r1 hsp, hd]

theorem readValue_object (n : Nat) (d : Char) (r1 : List Char) (hsp : isSpace d = false)
    (hd : d ≠ '}') :
    readValue (n + 1) ('{' :: d :: r1) =
      match readMembers n [] (d :: r1) with
      | some (m, r2) => some (.strMap (some m), r2)
      | none => none := by
  rw [readValue, skipSpace_cons '{' _ (by decide)]
  simp only [show ¬ ('{' = '"') by decide, if_false, if_true, skipSpace_cons d r1 hsp, hd]

theorem readElements_step (n : Nat) (cs : List Char) (v : GoValue) (d : Char) (r1 : List Char)
    (hv : readValue n cs = some (v, d :: r1)) (hsp : isSpace d = false) :
    readElements (n + 1) cs =
      if d = ',' then
        match readElements n r1 with
        | some (vs, r2) => some (v :: vs, r2)
        | none => none
      else if d = ']' then some ([v], r1)
      else none := by
  rw [readElements, hv]
  simp only [skipSpace_cons d r1 hsp]

theorem readMembers_step (n : Nat) (acc : List (String × GoValue)) (t : List Char)
    (k : List Char) (r2 : List Char) (v : GoValue) (e : Char) (r4 : List Char)
    (hk : readString t = some (k, ':' :: r2)) (hv : readValue n r2 = some (v, e :: r4))
    (hsp : isSpace e = false) :
    readMembers (n + 1) acc ('"' :: t) =
      if e = ',' then readMembers n (putMember acc (String.mk k) v) r4
      else if e = '}' then some (putMember acc (String.mk k) v, r4)
      else none := by
  rw [readMembers, skipSpace_cons '"' _ (by decide)]
  simp only [if_true, hk, skipSpace_cons ':' r2 (by decide), hv, skipSpace_cons e r4 hsp]

mutual
theorem readValue_render (v : GoValue) (cs rest : List Char) (n : Nat)
    (hn : jsonNative v = true) (hr : render v = some cs) (hf : cs.length + 1 ≤ n) :
    readValue n (cs ++ rest) = some (v, rest) := by
  obtain ⟨n, rfl⟩ : ∃ k, n = k + 1 := ⟨n - 1, by omega⟩
  match v, hn, hr with
  | .nil, _, hr =>
    simp only [render, Option.some.injEq] at hr
    subst hr
    simp [readValue, skipSpace, isSpace]
  | .bool b, _, hr =>
    simp only [render, Option.some.injEq] at hr
    subst hr
    cases b <;> simp [readValue, skipSpace, isSpace]
  | .string s, _, hr =>
    simp only [render, Option.some.injEq] at hr
    subst hr
    obtain ⟨t, ht, hs⟩ := readString_quote s rest
    rw [ht, readValue, skipSpace_cons '"' _ (by decide)]
    simp only [if_true, hs]
  | .ifaceSlice (some []), _, hr =>
    simp only [render, renderElements, Option.map_some', Option.some.injEq] at hr
    subst hr
    simp [readValue, skipSpace, isSpace, joinComma]
  | .ifaceSlice (some (x :: xs)), hn, hr =>
    simp only [render, Option.map_eq_some'] at hr
    obtain ⟨ys, hys, rfl⟩ := hr
    simp only [jsonNative] at hn
    obtain ⟨y, ys1, hy, _, rfl⟩ := renderElements_cons x xs ys hys
    obtain ⟨c, t, rfl, hc⟩ := render_head x y hy
    obtain ⟨hsp, hb, _⟩ := valueHead_facts c hc
    have ih := readElements_render (x :: xs) ((c :: t) :: ys1) rest n (by simp) hn hys
      (by simp at hf ⊢; omega)
    obtain ⟨r1, hr1⟩ := joinComma_head c t ys1 (']' :: rest)
    have hgoal : ('[' :: (joinComma ((c :: t) :: ys1) ++ [']'])) ++ rest = '[' :: c :: r1 := by
      rw [← hr1]
      simp
    rw [hr1] at ih
    rw [hgoal, readValue_array n c r1 hsp hb, ih]
  | .strMap (some []), _, hr =>
    simp only [render, renderMembers, Option.map_some', Option.some.injEq] at hr
    subst hr
    simp [readValue, skipSpace, isSpace, joinComma]
  | .strMap (some ((k, x) :: kvs)), hn, hr =>
    simp only [render, Option.map_eq_some'] at hr
    obtain ⟨ys, hys, rfl⟩ := hr
    simp only [jsonNative, Bool.and_eq_true, decide_eq_true_eq] at hn
    have ih := readMembers_render ((k, x) :: kvs) [] ys rest n (by simp) hn.1 (by simpa using hn.2)
      hys (by simp at hf ⊢; omega)
    obtain ⟨y, ys1, _, _, rfl⟩ := renderMembers_cons k x kvs ys hys
    have hq : quote k ++ ':' :: y = '"' :: (k.data.flatMap escapeChar ++ ['"'] ++ ':' :: y) := rfl
    rw [hq] at ih ⊢
    obtain ⟨r1, hr1⟩ := joinComma_head '"' (k.data.flatMap escapeChar ++ ['"'] ++ ':' :: y) ys1
      ('}' :: rest)
    have hgoal : ('{' :: (joinComma (('"' :: (k.data.flatMap escapeChar ++ ['"'] ++ ':' :: y))
        :: ys1) ++ ['}'])) ++ rest = '{' :: '"' :: r1 := by
      rw [← hr1]
      simp
    rw [hr1] at ih
    rw [hgoal, readValue_object n '"' r1 (by decide) (by decide), ih]
    rfl
theorem readElements_render (xs : List GoValue) (ys : List (List Char)) (rest : List Char)
    (n : Nat) (hne : xs ≠ []) (hn : jsonNativeList xs = true)
    (hr : renderElements xs = some ys) (hf : (joinComma ys).length + 2 ≤ n) :
    readElements n (joinComma ys ++ ']' :: rest) = some (xs, rest) := by
  obtain ⟨n, rfl⟩ : ∃ k, n = k + 1 := ⟨n - 1, by omega⟩
  match xs, hne, hn, hr with
  | [v], _, hn, hr =>
    obtain ⟨y, ys1, hy, hys1, rfl⟩ := renderElements_cons v [] ys hr
    simp only [renderElements, Option.some.injEq] at hys1
    subst hys1
    simp only [jsonNativeList, Bool.and_true] at hn
    have ih := readValue_render v y (']' :: rest) n hn hy (by simp [joinComma] at hf; omega)
    have hj : joinComma [y] = y := rfl
    rw [hj, readElements_step n _ v ']' rest ih (by decide)]
    simp
  | v :: w :: ws, _, hn, hr =>
    obtain ⟨y, ys1, hy, hys1, rfl⟩ := renderElements_cons v (w :: ws) ys hr
    obtain ⟨z, zs, _, _, rfl⟩ := renderElements_cons w ws ys1 hys1
    simp only [jsonNativeList, Bool.and_eq_true] at hn
    rw [joinComma_cons_cons] at hf ⊢
    have ih := readValue_render v y (',' :: (joinComma (z :: zs) ++ ']' :: rest)) n hn.1 hy
      (by simp at hf; omega)
    have ih2 := readElements_render (w :: ws) (z :: zs) rest n (by simp)
      (by simp [jsonNativeList, hn.2]) hys1 (by simp at hf ⊢; omega)
    have ht : (y ++ ',' :: joinComma (z :: zs)) ++ ']' :: rest =
        y ++ ',' :: (joinComma (z :: zs) ++ ']' :: rest) := by simp
    rw [ht, readElements_step n _ v ',' _ ih (by decide), if_pos rfl, ih2]
theorem readMembers_render (ms : List (String × GoValue)) (acc : List (String × GoValue))
    (ys : List (List Char)) (rest : List Char) (n : Nat) (hne : ms ≠ [])
    (hn : jsonNativeMembers ms = true) (hnd : ((acc ++ ms).map Prod.fst).Nodup)
    (hr : renderMembers ms = some ys) (hf : (joinComma ys).length + 2 ≤ n) :
    readMembers n acc (joinComma ys ++ '}' :: rest) = some (acc ++ ms, rest) := by
  obtain ⟨n, rfl⟩ : ∃ k, n = k + 1 := ⟨n - 1, by omega⟩
  match ms, hne, hn, hnd, hr with
  | [(k, v)], _, hn, hnd, hr =>
    obtain ⟨y, ys1, hy, hys1, rfl⟩ := renderMembers_cons k v [] ys hr
    simp only [renderMembers, Option.some.injEq] at hys1
    subst hys1
    simp only [jsonNativeMembers, Bool.and_true] at hn
    have hfresh : k ∉ acc.map Prod.fst := by
      simp only [List.map_append, List.map_cons, List.map_nil] at hnd
      intro hmem
      exact (List.nodup_append.1 hnd).2.2 hmem (by simp)
    have ih := readValue_render v y ('}' :: rest) n hn hy
      (by simp [joinComma] at hf ⊢; omega)
    obtain ⟨t, ht, hs⟩ := readString_quote k (':' :: (y ++ '}' :: rest))
    have htext : joinComma [quote k ++ ':' :: y] ++ '}' :: rest = '"' :: t := by
      rw [← ht]
      simp [joinComma]
    rw [htext, readMembers_step n acc t k.data _ v '}' rest hs ih (by decide)]
    simp [putMember_fresh acc k v hfresh]
  | (k, v) :: w :: ws, _, hn, hnd, hr =>
    obtain ⟨y, ys1, hy, hys1, rfl⟩ := renderMembers_cons k v (w :: ws) ys hr
    obtain ⟨wk, wv⟩ := w
    obtain ⟨z, zs, _, _, hz⟩ := renderMembers_cons wk wv ws ys1 hys1
    simp only [jsonNativeMembers, Bool.and_eq_true] at hn
    have hfresh : k ∉ acc.map Prod.fst := by
      simp only [List.map_append, List.map_cons] at hnd
      intro hmem
      exact (List.nodup_append.1 hnd).2.2 hmem (by simp)
    have hnd2 : (((acc ++ [(k, v)]) ++ (wk, wv) :: ws).map Prod.fst).Nodup := by
      simpa using hnd
    have hj : joinComma ((quote k ++ ':' :: y) :: ys1) =
        (quote k ++ ':' :: y) ++ ',' :: joinComma ys1 := by
      rw [hz, joinComma_cons_cons]
    rw [hj] at hf ⊢
    have ih := readValue_render v y (',' :: (joinComma ys1 ++ '}' :: rest)) n hn.1 hy
      (by simp at hf ⊢; omega)
    have ih2 := readMembers_render ((wk, wv) :: ws) (acc ++ [(k, v)]) ys1 rest n (by simp)
      (by simp [jsonNativeMembers, hn.2]) hnd2 hys1 (by simp at hf ⊢; omega)
    obtain ⟨t, ht, hs⟩ := readString_quote k
      (':' :: (y ++ ',' :: (joinComma ys1 ++ '}' :: rest)))
    have htext : ((quote k ++ ':' :: y) ++ ',' :: joinComma ys1) ++ '}' :: rest = '"' :: t := by
      rw [← ht]
      simp
    rw [htext, readMembers_step n acc t k.data _ v ',' _ hs ih (by decide), if_pos rfl,
      putMember_fresh acc k v hfresh, ih2]
    simp
end
theorem readJSON_render (v : GoValue) (cs : List Char) (hn : jsonNative v = true)
    (hr : render v = some cs) : readJSON (String.mk cs) = some v := by
  have h := readValue_render v cs [] (2 * cs.length + 2) hn hr (by omega)
  rw [List.append_nil] at h
  simp [readJSON, String.length, h, skipSpace]

theorem specOptions_roundtrip (o : Options) (s : String) (h : specOptionsString o = .ok s) :
    readJSON s = some (optionsValue o) ∧ specOptionsRead s = some o := by
  unfold specOptionsString at h
  split at h
  · rename_i hn
    split at h
    · rename_i cs hcs
      have hs : s = String.mk cs := (Except.ok.inj h).symm
      subst hs
      have hj := readJSON_render _ cs hn hcs
      refine ⟨hj, ?_⟩
      obtain ⟨cid, nt, f⟩ := o
      simp only [specOptionsRead, hj, optionsValue]
      cases cid <;> cases nt <;> cases f <;> simp [List.lookup]
    · simp at h
  · simp at h


mutual
theorem render_native (v : GoValue) (h : jsonNative v = true) : ∃ cs, render v = some cs := by
  match v, h with
  | .nil, _ => exact ⟨_, rfl⟩
  | .bool _, _ => exact ⟨_, rfl⟩
  | .string _, _ => exact ⟨_, rfl⟩
  | .ifaceSlice (some xs), h =>
    simp only [jsonNative] at h
    obtain ⟨ys, hys⟩ := renderElements_native xs h
    exact ⟨_, by simp only [render, hys, Option.map_some']; rfl⟩
  | .strMap (some m), h =>
    simp only [jsonNative, Bool.and_eq_true] at h
    obtain ⟨ys, hys⟩ := renderMembers_native m h.1
    exact ⟨_, by simp only [render, hys, Option.map_some']; rfl⟩
theorem renderElements_native (xs : List GoValue) (h : jsonNativeList xs = true) :
    ∃ ys, renderElements xs = some ys := by
  match xs, h with
  | [], _ => exact ⟨_, rfl⟩
  | v :: vs, h =>
    simp only [jsonNativeList, Bool.and_eq_true] at h
    obtain ⟨y, hy⟩ := render_native v h.1
    obtain ⟨ys, hys⟩ := renderElements_native vs h.2
    exact ⟨_, by simp only [renderElements, hy, hys]; rfl⟩
theorem renderMembers_native (m : List (String × GoValue)) (h : jsonNativeMembers m = true) :
    ∃ ys, renderMembers m = some ys := by
  match m, h with
  | [], _ => exact ⟨_, rfl⟩
  | (k, v) :: kvs, h =>
    simp only [jsonNativeMembers, Bool.and_eq_true] at h
    obtain ⟨y, hy⟩ := render_native v h.1
    obtain ⟨ys, hys⟩ := renderMembers_native kvs h.2
    exact ⟨_, by simp only [renderMembers, hy, hys]; rfl⟩
end

/-- The encoder of the spec encodes every options value whose filter is nil or
a map of values that JSON gives back exactly. -/
theorem specOptionsString_defined (o : Options)
    (h : o.Filter = none ∨ jsonNative (.strMap o.Filter) = true) :
    ∃ s, specOptionsString o = .ok s := by
  have hn : jsonNative (optionsValue o) = true := by
    obtain ⟨cid, n, f⟩ := o
    cases f with
    | none => cases cid <;> cases n <;> simp [optionsValue, jsonNative, jsonNativeMembers]
    | some m =>
      have hm : jsonNative (.strMap (some m)) = true := by
        rcases h with h | h
        · exact Option.noConfusion h
        · exact h
      cases cid <;> cases n <;> simp [optionsValue, jsonNative, jsonNativeMembers, hm] <;>
        simpa [jsonNative] using hm
  obtain ⟨cs, hcs⟩ := render_native _ hn
  exact ⟨String.mk cs, by simp [specOptionsString, hn, hcs]⟩

theorem optionsValue_members (o : Options) :
    ∃ m, optionsValue o = .strMap (some m) ∧
      List.lookup "clientId" m = o.ClientId.map GoValue.string := by
  obtain ⟨cid, n, f⟩ := o
  cases cid with
  | none => exact ⟨_, rfl, by simp [List.lookup]⟩
  | some id => exact ⟨_, rfl, by simp [List.lookup]⟩

/-- C9: the options value `SendRequest` hands to the Options Encoder has no
clientId exactly when the ClientId of the client is the empty string and
otherwise the ClientId, the NotifyRealTime flag as notify and the Filter as
filter, and the request carries the encoder output as its NeutrinoOptions
header, whatever the encoder is; with the encoder of the spec, decoding the
header gives back that options value, hence the filter and the client id of
the client, and the encoded object has a "clientId" member exactly when the
ClientId is not empty. -/
theorem SendRequest_options (env : Env) (c : ApiClient) (url method : String) (body : GoValue)
    (isArray : Bool) (req : Request)
    (hs : (SendRequest env c url method body isArray).sent = some req) :
    ∃ opts optsS, env.OptionsString opts = .ok optsS ∧
      req.Header.Get "NeutrinoOptions" = some optsS ∧
      (opts.ClientId = none ↔ c.ClientId = "") ∧
      (c.ClientId ≠ "" → opts.ClientId = some c.ClientId) ∧
      opts.Notify = some c.NotifyRealTime ∧
      opts.Filter = c.Filter ∧
      (env.OptionsString = specOptionsString →
        specOptionsRead optsS = some opts ∧
        (specOptionsRead optsS).map (fun o => o.Filter) = some c.Filter ∧
        (specOptionsRead optsS).map (fun o => o.ClientId) =
          some (if c.ClientId = "" then none else some c.ClientId) ∧
        ∃ m, readJSON optsS = some (.strMap (some m)) ∧
          (List.lookup "clientId" m = none ↔ c.ClientId = "") ∧
          (c.ClientId ≠ "" → List.lookup "clientId" m = some (.string c.ClientId))) := by
  obtain ⟨_, req0, optsS, _, _, ho, rfl⟩ := SendRequest_sent_inv _ _ _ _ _ _ _ hs
  have hcid : (requestOptions c).ClientId = if c.ClientId = "" then none else some c.ClientId := by
    by_cases hc : c.ClientId = "" <;> simp [requestOptions, hc]
  refine ⟨requestOptions c, optsS, ho, Header.get_set_self _ _ _, ?_, ?_, rfl, rfl, ?_⟩
  · rw [hcid]
    by_cases hc : c.ClientId = "" <;> simp [hc]
  · intro hc
    rw [hcid, if_neg hc]
  · intro henc
    rw [henc] at ho
    obtain ⟨hjson, hread⟩ := specOptions_roundtrip _ _ ho
    refine ⟨hread, ?_, ?_, ?_⟩
    · rw [hread]
      rfl
    · rw [hread, Option.map_some', hcid]
    · obtain ⟨m, hm, hl⟩ := optionsValue_members (requestOptions c)
      refine ⟨m, hjson.trans (by rw [hm]), ?_, ?_⟩
      · rw [hl, hcid]
        by_cases hc : c.ClientId = "" <;> simp [hc]
      · intro hc
        rw [hl, hcid, if_neg hc]
        rfl

/-- C9 at concrete inputs, with the encoder of the spec: a client with the
ClientId "c1", the notify flag and a filter with a string and a list sends
them as a JSON object that decodes to the same values; the sample client,
whose ClientId is empty, sends an object without a "clientId" member. -/
theorem SendRequest_options_witness :
    (SendRequest (refEnv (respond 200 ""))
        { sampleClient with
          ClientId := "c1", NotifyRealTime := true,
          Filter := some [("name", .string "ann"),
                          ("tags", .ifaceSlice (some [.string "a", .bool false]))] }
        "app" "GET" .nil true).sent =
      some { Method := "GET", URL := "http://localhost:5000/v1/app", Body := "",
             Header := [("NeutrinoOptions",
               "\x7b\"clientId\":\"c1\",\"notify\":true,\"filter\":\x7b\"name\":\"ann\",\"tags\":[\"a\",false]\x7d\x7d")] } ∧
    (refEnv (respond 200 "")).OptionsString = specOptionsString ∧
    (∃ opts optsS, specOptionsString opts = .ok optsS ∧
      Header.Get [("NeutrinoOptions",
        "\x7b\"clientId\":\"c1\",\"notify\":true,\"filter\":\x7b\"name\":\"ann\",\"tags\":[\"a\",false]\x7d\x7d")]
        "NeutrinoOptions" = some optsS ∧
      opts.Notify = some true ∧
      opts.Filter = some [("name", .string "ann"),
                          ("tags", .ifaceSlice (some [.string "a", .bool false]))] ∧
      specOptionsRead optsS = some opts ∧
      (specOptionsRead optsS).map (fun o => o.ClientId) = some (some "c1")) ∧
    specOptionsRead
        "\x7b\"clientId\":\"c1\",\"notify\":true,\"filter\":\x7b\"name\":\"ann\",\"tags\":[\"a\",false]\x7d\x7d" =
      some { ClientId := some "c1", Notify := some true,
             Filter := some [("name", .string "ann"),
                             ("tags", .ifaceSlice (some [.string "a", .bool false]))] } ∧
    readJSON "\x7b\"notify\":false,\"filter\":null\x7d" =
      some (.strMap (some [("notify", .bool false), ("filter", .nil)])) :=
  ⟨rfl, rfl,
   (SendRequest_options (refEnv (respond 200 ""))
      { sampleClient with
        ClientId := "c1", NotifyRealTime := true,
        Filter := some [("name", .string "ann"),
                        ("tags", .ifaceSlice (some [.string "a", .bool false]))] }
      "app" "GET" .nil true _ rfl).imp
      (fun _ h => h.imp (fun _ h =>
        ⟨h.1, h.2.1, h.2.2.2.2.1, h.2.2.2.2.2.1, (h.2.2.2.2.2.2 rfl).1,
          (h.2.2.2.2.2.2 rfl).2.2.1⟩)),
   rfl, rfl⟩

/-! ## The client cache -/

theorem lookup_mapAssign_self (m : List (String × Nat)) (k : String) (v : Nat) :
    List.lookup k (mapAssign m k v) = some v := by
  simp [mapAssign, List.lookup]

theorem lookup_mapAssign_ne (m : List (String × Nat)) (k k' : String) (v : Nat) (h : k ≠ k') :
    List.lookup k (mapAssign m k' v) = List.lookup k m := by
  have hb : (k == k') = false := by simpa using h
  simp [mapAssign, List.lookup, hb, lookup_filter_ne k k' h]

theorem mem_of_lookup (m : List (String × Nat)) (k : String) (v : Nat)
    (h : List.lookup k m = some v) : (k, v) ∈ m := by
  induction m with
  | nil => simp at h
  | cons x xs ih =>
    obtain ⟨a, b⟩ := x
    by_cases hk : k = a
    · subst hk
      simp [List.lookup] at h
      simp [h]
    · have hb : (k == a) = false := by simpa using hk
      simp only [List.lookup, hb] at h
      exact List.mem_cons_of_mem _ (ih h)

theorem lookup_of_mem (m : List (String × Nat)) (k : String) (v : Nat)
    (hn : (m.map Prod.fst).Nodup) (h : (k, v) ∈ m) : List.lookup k m = some v := by
  induction m with
  | nil => simp at h
  | cons x xs ih =>
    obtain ⟨a, b⟩ := x
    simp only [List.map_cons, List.nodup_cons] at hn
    rcases List.mem_cons.1 h with heq | hmem
    · obtain ⟨rfl, rfl⟩ := Prod.mk.inj heq
      simp [List.lookup]
    · have hne : k ≠ a := by
        rintro rfl
        exact hn.1 (List.mem_map.2 ⟨(k, v), hmem, rfl⟩)
      have hb : (k == a) = false := by simpa using hne
      simp only [List.lookup, hb]
      exact ih hn.2 hmem

theorem NewApiClientCached_hit (a : String) (s : Package) (p : Nat)
    (h : List.lookup a s.clientCache = some p) : NewApiClientCached a s = (some p, s) := by
  simp [NewApiClientCached, h]

theorem NewApiClientCached_miss (a : String) (s : Package)
    (h : List.lookup a s.clientCache = none) :
    NewApiClientCached a s =
      (some s.heap.length,
       { (NewApiClient a s).2 with clientCache := mapAssign s.clientCache a s.heap.length }) := by
  simp [NewApiClientCached, h, NewApiClient, lookup_mapAssign_self]

theorem CacheInv.init : CacheInv Package.init :=
  ⟨by simp [Package.init], by simp [Package.init], by simp [Package.init]⟩

theorem CacheInv.newApiClientCached (a : String) (s : Package) (hi : CacheInv s) :
    CacheInv (NewApiClientCached a s).2 := by
  cases h : List.lookup a s.clientCache with
  | some p =>
    rw [NewApiClientCached_hit a s p h]
    exact hi
  | none =>
    rw [NewApiClientCached_miss a s h]
    have hsub : (s.clientCache.filter (fun q => q.1 != a)).Sublist s.clientCache :=
      List.filter_sublist _
    refine ⟨?_, ?_, ?_⟩
    · intro kv hkv
      simp only [mapAssign, NewApiClient, List.mem_cons, List.length_append, List.length_singleton]
        at hkv ⊢
      rcases hkv with rfl | hmem
      · exact Nat.lt_succ_self _
      · exact Nat.lt_succ_of_lt (hi.live kv (hsub.subset hmem))
    · simp only [mapAssign, List.map_cons, List.nodup_cons]
      refine ⟨?_, (hsub.map Prod.fst).nodup hi.keys⟩
      intro hmem
      obtain ⟨kv, hkv, hk⟩ := List.mem_map.1 hmem
      have := (List.mem_filter.1 hkv).2
      simp [hk] at this
    · simp only [mapAssign, List.map_cons, List.nodup_cons]
      refine ⟨?_, (hsub.map Prod.snd).nodup hi.addrs⟩
      intro hmem
      obtain ⟨kv, hkv, hk⟩ := List.mem_map.1 hmem
      have := hi.live kv (hsub.subset hkv)
      omega

theorem CacheInv.step (s s' : Package) (hi : CacheInv s) (h : Step s s') : CacheInv s' := by
  cases h with
  | initClient h w t o => exact ⟨hi.live, hi.keys, hi.addrs⟩
  | newApiClient appId =>
    refine ⟨?_, hi.keys, hi.addrs⟩
    intro kv hkv
    simp only [NewApiClient, List.length_append, List.length_singleton]
    exact Nat.lt_succ_of_lt (hi.live kv hkv)
  | newApiClientCached appId => exact CacheInv.newApiClientCached appId s hi
  | newApiClientClean => exact CacheInv.newApiClientCached "" s hi
  | store p c =>
    refine ⟨?_, hi.keys, hi.addrs⟩
    intro kv hkv
    simp only [Package.store, List.length_set]
    exact hi.live kv hkv

theorem CacheInv.steps (s s' : Package) (hi : CacheInv s)
    (h : Relation.ReflTransGen Step s s') : CacheInv s' := by
  induction h with
  | refl => exact hi
  | tail _ hstep ih => exact CacheInv.step _ _ ih hstep

theorem CacheInv.reachable (s : Package) (h : Reachable s) : CacheInv s :=
  CacheInv.steps _ _ CacheInv.init h

theorem NewApiClientCached_keeps (a b : String) (s : Package) (p : Nat)
    (h : List.lookup a s.clientCache = some p) :
    List.lookup a (NewApiClientCached b s).2.clientCache = some p ∧
      s.heap.length ≤ (NewApiClientCached b s).2.heap.length := by
  cases hb : List.lookup b s.clientCache with
  | some q =>
    rw [NewApiClientCached_hit b s q hb]
    exact ⟨h, le_refl _⟩
  | none =>
    rw [NewApiClientCached_miss b s hb]
    have hne : a ≠ b := by
      rintro rfl
      rw [h] at hb
      exact Option.noConfusion hb
    refine ⟨?_, ?_⟩
    · simp only
      rw [lookup_mapAssign_ne _ _ _ _ hne]
      exact h
    · simp [NewApiClient]

theorem cache_step_keeps (a : String) (s s' : Package) (p : Nat) (hstep : Step s s')
    (h : List.lookup a s.clientCache = some p) :
    List.lookup a s'.clientCache = some p ∧ s.heap.length ≤ s'.heap.length := by
  cases hstep with
  | initClient _ _ _ _ => exact ⟨h, le_refl _⟩
  | newApiClient appId => exact ⟨h, by simp [NewApiClient]⟩
  | newApiClientCached appId => exact NewApiClientCached_keeps a appId s p h
  | newApiClientClean => exact NewApiClientCached_keeps a "" s p h
  | store q c => exact ⟨h, by simp [Package.store]⟩

theorem cache_steps_keep (a : String) (s s' : Package) (p : Nat)
    (hsteps : Relation.ReflTransGen Step s s')
    (h : List.lookup a s.clientCache = some p) :
    List.lookup a s'.clientCache = some p ∧ s.heap.length ≤ s'.heap.length := by
  induction hsteps with
  | refl => exact ⟨h, le_refl _⟩
  | tail _ hstep ih =>
    obtain ⟨h1, h2⟩ := cache_step_keeps a _ _ p hstep ih.1
    exact ⟨h1, le_trans ih.2 h2⟩

theorem NewApiClientCached_cached (a : String) (s : Package) (hi : CacheInv s) :
    ∃ p, (NewApiClientCached a s).1 = some p ∧
      List.lookup a (NewApiClientCached a s).2.clientCache = some p ∧
      p < (NewApiClientCached a s).2.heap.length := by
  cases h : List.lookup a s.clientCache with
  | some p =>
    rw [NewApiClientCached_hit a s p h]
    exact ⟨p, rfl, h, hi.live _ (mem_of_lookup _ _ _ h)⟩
  | none =>
    rw [NewApiClientCached_miss a s h]
    exact ⟨s.heap.length, rfl, lookup_mapAssign_self _ _ _, by simp [NewApiClient]⟩

/-- C7: in every state a program can reach, a call of `NewApiClientCached`
returns an allocated client; every later call with the same appId returns the
same client and changes nothing (no client is created, the cache is as it
was); every later call with another appId returns a different client; the
cache never holds two clients under one appId; an object written through the
handle of the first call is the object read through the handle of a later
call; and `NewApiClientClean` is `NewApiClientCached` of the empty string,
the client cached under that key. -/
theorem client_cache (s s' : Package) (a : String) (hr : Reachable s)
    (hsteps : Relation.ReflTransGen Step (NewApiClientCached a s).2 s') :
    ∃ p, (NewApiClientCached a s).1 = some p ∧
      p < (NewApiClientCached a s).2.heap.length ∧
      NewApiClientCached a s' = (some p, s') ∧
      (∀ b, b ≠ a → ∃ q, (NewApiClientCached b s').1 = some q ∧ q ≠ p) ∧
      (∀ k q1 q2, (k, q1) ∈ s'.clientCache → (k, q2) ∈ s'.clientCache → q1 = q2) ∧
      (∀ c, (NewApiClientCached a (s'.store p c)).2.deref
        (NewApiClientCached a (s'.store p c)).1 = some c) ∧
      NewApiClientClean s' = NewApiClientCached "" s' ∧
      (NewApiClientClean s').1 = List.lookup "" (NewApiClientClean s').2.clientCache := by
  have hi : CacheInv s := CacheInv.reachable s hr
  have hi1 : CacheInv (NewApiClientCached a s).2 := CacheInv.newApiClientCached a s hi
  have hi' : CacheInv s' := CacheInv.steps _ _ hi1 hsteps
  obtain ⟨p, hp, hlook, hlive⟩ := NewApiClientCached_cached a s hi
  obtain ⟨hlook', hlen⟩ := cache_steps_keep a _ _ p hsteps hlook
  refine ⟨p, hp, hlive, NewApiClientCached_hit a s' p hlook', ?_, ?_, ?_, rfl, rfl⟩
  · intro b hb
    obtain ⟨q, hq, hqlook, hqlive⟩ := NewApiClientCached_cached b s' hi'
    refine ⟨q, hq, ?_⟩
    rintro rfl
    obtain ⟨hplook, _⟩ := NewApiClientCached_keeps a b s' q hlook'
    have hmem1 := mem_of_lookup _ _ _ hplook
    have hmem2 := mem_of_lookup _ _ _ hqlook
    have hinv := CacheInv.newApiClientCached b s' hi'
    have := List.inj_on_of_nodup_map hinv.addrs hmem1 hmem2 rfl
    exact hb (Prod.mk.inj this).1.symm
  · intro k q1 q2 h1 h2
    have e1 := lookup_of_mem _ _ _ hi'.keys h1
    have e2 := lookup_of_mem _ _ _ hi'.keys h2
    rw [e1] at e2
    exact Option.some.inj e2
  · intro c
    have hl : List.lookup a (s'.store p c).clientCache = some p := hlook'
    rw [NewApiClientCached_hit a (s'.store p c) p hl]
    have hlt : p < s'.heap.length := lt_of_lt_of_le hlive hlen
    simp [Package.deref, Package.store, hlt]

/-- C7 at a concrete run: after package initialisation the first call for
"app1" allocates the client at address 0; after a call for "app2" the call
for "app1" returns address 0 again and leaves the state as it is, "app2" has
address 1, and a token stored through the first handle is read through the
second. -/
theorem client_cache_witness :
    (∃ p, (NewApiClientCached "app1" Package.init).1 = some p ∧
      p < (NewApiClientCached "app1" Package.init).2.heap.length ∧
      NewApiClientCached "app1"
          (NewApiClientCached "app2" (NewApiClientCached "app1" Package.init).2).2 =
        (some p, (NewApiClientCached "app2" (NewApiClientCached "app1" Package.init).2).2) ∧
      (∀ b, b ≠ "app1" → ∃ q, (NewApiClientCached b
          (NewApiClientCached "app2" (NewApiClientCached "app1" Package.init).2).2).1 = some q ∧
        q ≠ p)) ∧
    (NewApiClientCached "app1" Package.init).1 = some 0 ∧
    (NewApiClientCached "app2" (NewApiClientCached "app1" Package.init).2).1 = some 1 ∧
    (NewApiClientCached "app1"
      (NewApiClientCached "app2" (NewApiClientCached "app1" Package.init).2).2).1 = some 0 ∧
    ((NewApiClientCached "app1"
        ((NewApiClientCached "app2" (NewApiClientCached "app1" Package.init).2).2.store 0
          { sampleClient with Token := "xyz" })).2.deref
      (NewApiClientCached "app1"
        ((NewApiClientCached "app2" (NewApiClientCached "app1" Package.init).2).2.store 0
          { sampleClient with Token := "xyz" })).1).map (fun c => c.Token) = some "xyz" :=
  ⟨(client_cache Package.init
      (NewApiClientCached "app2" (NewApiClientCached "app1" Package.init).2).2 "app1"
      Relation.ReflTransGen.refl
      (Relation.ReflTransGen.single (Step.newApiClientCached _ "app2"))).imp
      (fun _ h => ⟨h.1, h.2.1, h.2.2.1, h.2.2.2.1⟩),
    rfl, rfl, rfl, rfl⟩

end Neutrino
